import Mathlib

/-!
Verification of the twittuh HTML timeline parser.

This file gives a shallow embedding, in Lean, of the parts of the Go
program that the specification's claims are about, and proves or refutes
each claim against that embedding.

Modelling conventions:
* `html.Node` trees (from golang.org/x/net/html) are modelled by the
  mutual inductive `HNode`/`HForest` below.  Only element and text nodes
  occur in the parts of the program under study; attributes keep their
  document order.  Go mutates trees in place through pointers; the
  embedding is functional, and in-place rewrites become functions that
  return the rewritten tree.  Parent pointers are modelled by paths
  (lists of child indices) from the root of the subtree a parser works
  on; parents above that root (which Go could still reach through
  pointers) are modelled as nil, which only differs from Go on documents
  where a positional heuristic climbs out of the tweet container.
* Go `time.Time` values are modelled as `Int` nanoseconds since the Unix
  epoch (proleptic Gregorian calendar, as Go computes it), and
  `time.Duration` as `Int` nanoseconds with explicit wrapping to 64 bits
  where Go multiplies durations.
* Fallible Go functions returning `(T, error)` are modelled as
  `T × Option String` when the partially filled `T` matters to callers
  (as in `parseTweet`), and as `Except String T` otherwise.  Error texts
  of Go standard-library errors are abbreviated; error texts produced by
  the repository's own `fmt.Errorf` calls are reproduced exactly.
* `strconv`, `path.Base`, `net/url`, RFC 3339 parsing and the
  regular expressions of parse.go are modelled directly on strings;
  regular expressions are unfolded into the string scans they denote
  (all are anchored, which makes the match unique).
-/

/-- Decidable equality for `Except`, used to evaluate witnesses. -/
instance {ε α : Type} [DecidableEq ε] [DecidableEq α] : DecidableEq (Except ε α) := fun a b =>
  match a, b with
  | .error e, .error f =>
    if h : e = f then isTrue (by rw [h]) else isFalse (fun hh => h (by injection hh))
  | .ok x, .ok y =>
    if h : x = y then isTrue (by rw [h]) else isFalse (fun hh => h (by injection hh))
  | .error _, .ok _ => isFalse (fun hh => Except.noConfusion hh)
  | .ok _, .error _ => isFalse (fun hh => Except.noConfusion hh)

mutual
/-- An HTML node: an element with a tag, attributes and children, or a
text node. -/
inductive HNode : Type where
  | elem (tag : String) (attrs : List (String × String)) (children : HForest)
  | text (data : String)
/-- Children of an HTML node (a mutual inductive rather than a nested
`List`, so that all tree functions are structurally recursive and
compute by `rfl`). -/
inductive HForest : Type where
  | nil
  | cons (head : HNode) (tail : HForest)
end

mutual
/-- Boolean structural equality on nodes. -/
def hnBeq : HNode → HNode → Bool
  | .text s, .text t => s == t
  | .elem t1 a1 c1, .elem t2 a2 c2 => t1 == t2 && a1 == a2 && hfBeq c1 c2
  | _, _ => false
/-- Boolean structural equality on forests. -/
def hfBeq : HForest → HForest → Bool
  | .nil, .nil => true
  | .cons a as, .cons b bs => hnBeq a b && hfBeq as bs
  | _, _ => false
end

mutual
theorem hnBeq_refl (n : HNode) : hnBeq n n = true := by
  cases n with
  | text s => simp [hnBeq]
  | elem t a cs => simp [hnBeq, hfBeq_refl cs]
theorem hfBeq_refl (cs : HForest) : hfBeq cs cs = true := by
  cases cs with
  | nil => simp [hfBeq]
  | cons c rest => simp [hfBeq, hnBeq_refl c, hfBeq_refl rest]
end

mutual
theorem hnBeq_eq (a b : HNode) : hnBeq a b = true → a = b := by
  cases a with
  | text s =>
    cases b with
    | text t => simp [hnBeq]
    | elem _ _ _ => simp [hnBeq]
  | elem t1 a1 c1 =>
    cases b with
    | text _ => simp [hnBeq]
    | elem t2 a2 c2 =>
      simp only [hnBeq, Bool.and_eq_true, beq_iff_eq]
      intro h
      obtain ⟨⟨h1, h2⟩, h3⟩ := h
      rw [h1, h2, hfBeq_eq c1 c2 h3]
theorem hfBeq_eq (a b : HForest) : hfBeq a b = true → a = b := by
  cases a with
  | nil =>
    cases b with
    | nil => intro _; rfl
    | cons _ _ => simp [hfBeq]
  | cons x xs =>
    cases b with
    | nil => simp [hfBeq]
    | cons y ys =>
      simp only [hfBeq, Bool.and_eq_true]
      intro h
      rw [hnBeq_eq x y h.1, hfBeq_eq xs ys h.2]
end

instance : DecidableEq HNode := fun a b =>
  decidable_of_iff (hnBeq a b = true)
    ⟨hnBeq_eq a b, fun h => h ▸ hnBeq_refl a⟩

instance : DecidableEq HForest := fun a b =>
  decidable_of_iff (hfBeq a b = true)
    ⟨hfBeq_eq a b, fun h => h ▸ hfBeq_refl a⟩

/-- Convert a forest to a list of nodes. -/
def forestToList : HForest → List HNode
  | .nil => []
  | .cons c rest => c :: forestToList rest

/-- Convert a list of nodes to a forest. -/
def forestOfList : List HNode → HForest
  | [] => .nil
  | c :: rest => .cons c (forestOfList rest)

theorem forestToList_ofList (l : List HNode) : forestToList (forestOfList l) = l := by
  induction l with
  | nil => rfl
  | cons c rest ih => simp [forestOfList, forestToList, ih]

theorem forestOfList_toList : ∀ (cs : HForest), forestOfList (forestToList cs) = cs
  | .nil => rfl
  | .cons c rest => by simp [forestToList, forestOfList, forestOfList_toList rest]

/-- The children of a node, as a forest (`nil` for text nodes). -/
def childrenD : HNode → HForest
  | .elem _ _ cs => cs
  | .text _ => .nil

/-- The children of a node, as a list. -/
def childrenL (n : HNode) : List HNode := forestToList (childrenD n)

/-- The tag of an element node (empty for text nodes). -/
def tagOf : HNode → String
  | .elem t _ _ => t
  | .text _ => ""

/-- The attribute list of a node (text nodes have none). -/
def attrsOf : HNode → List (String × String)
  | .elem _ a _ => a
  | .text _ => []

/-- The data of a text node (empty for elements). -/
def dataOf : HNode → String
  | .text s => s
  | .elem _ _ _ => ""

/-- html.go `isText` is not among the provided source files; it is the
obvious test used throughout parse.go.  Modelled from the spec: a node
is a text node. -/
def isText : HNode → Bool
  | .text _ => true
  | .elem _ _ _ => false

/-- html.go `isElement`: n is an HTML element with the supplied tag.
(The Go function also returns false for a nil node; nil receivers are
modelled by `isElementO` below.) -/
def isElement (n : HNode) (tag : String) : Bool :=
  match n with
  | .elem t _ _ => t == tag
  | .text _ => false

/-- `isElement` lifted to a possibly-nil node, matching Go's
`n != nil && ...` check. -/
def isElementO (n : Option HNode) (tag : String) : Bool :=
  match n with
  | none => false
  | some m => isElement m tag

/-- Helper for `getAttr`: scan an attribute list for the first
occurrence of the key. -/
def getAttrL : List (String × String) → String → String
  | [], _ => ""
  | (k, v) :: rest, attr => if k == attr then v else getAttrL rest attr

/-- html.go `getAttr`: first occurrence of the named attribute, or "". -/
def getAttr (n : HNode) (attr : String) : String :=
  getAttrL (attrsOf n) attr

/-- Whether some attribute with the given key is present
(the one-part case of `matchFunc` expressions). -/
def hasAttrKey : List (String × String) → String → Bool
  | [], _ => false
  | (k, _) :: rest, attr => k == attr || hasAttrKey rest attr

/-- strings.Fields on ASCII whitespace (Go uses Unicode whitespace; the
class attributes in scope are ASCII). -/
def goFieldsAux : List Char → List Char → List String
  | [], [] => []
  | [], c :: cur => [String.mk ((c :: cur).reverse)]
  | c :: rest, cur =>
    if c.isWhitespace then
      match cur with
      | [] => goFieldsAux rest []
      | d :: ds => String.mk ((d :: ds).reverse) :: goFieldsAux rest []
    else goFieldsAux rest (c :: cur)

/-- strings.Fields. -/
def goFields (s : String) : List String := goFieldsAux s.toList []

/-- html.go `hasClass`: the "class" attribute, split into fields,
contains the given class. -/
def hasClass (n : HNode) (cls : String) : Bool :=
  (goFields (getAttr n "class")).contains cls

/-- Helper for `splitN2Eq`: scan for the first '='. -/
def splitN2EqAux : List Char → List Char → String × Option String
  | [], acc => (String.mk acc.reverse, none)
  | c :: rest, acc =>
    if c == '=' then (String.mk acc.reverse, some (String.mk rest))
    else splitN2EqAux rest (c :: acc)

/-- strings.SplitN(expr, "=", 2): the part before the first '=' and,
if a '=' occurs, the part after it. -/
def splitN2Eq (e : String) : String × Option String :=
  splitN2EqAux e.toList []

/-- Helper for `matchFunc`: check every attribute expression. -/
def matchExprs : List String → HNode → Bool
  | [], _ => true
  | expr :: rest, n =>
    match splitN2Eq expr with
    | (k, none) => if hasAttrKey (attrsOf n) k then matchExprs rest n else false
    | (k, some v) =>
      if k == "class" then
        if hasClass n v then matchExprs rest n else false
      else
        if getAttr n k == v then matchExprs rest n else false

/-- html.go `matchFunc`: matches elements with the given tag (when the
tag is nonempty) whose attributes satisfy every expression: "name"
requires the attribute to be present, "name=val" requires equality, and
"class=val" requires class membership. -/
def matchFunc (tag : String) (exprs : List String) : HNode → Bool :=
  fun n =>
    if tag != "" && !(isElement n tag) then false
    else matchExprs exprs n

mutual
/-- html.go `findNodes`: nodes in the tree for which f returns true;
after a node is matched, its children are not examined. -/
def findNodes (f : HNode → Bool) (n : HNode) : List HNode :=
  if f n then [n]
  else
    match n with
    | .text _ => []
    | .elem _ _ cs => findNodesF f cs
/-- `findNodes` over a forest, concatenating results in order. -/
def findNodesF (f : HNode → Bool) (cs : HForest) : List HNode :=
  match cs with
  | .nil => []
  | .cons c rest => findNodes f c ++ findNodesF f rest
end

mutual
/-- html.go `findFirstNode`: depth-first search returning the first node
for which f returns true. -/
def findFirstNode (f : HNode → Bool) (n : HNode) : Option HNode :=
  if f n then some n
  else
    match n with
    | .text _ => none
    | .elem _ _ cs => findFirstNodeF f cs
/-- `findFirstNode` over a forest. -/
def findFirstNodeF (f : HNode → Bool) (cs : HForest) : Option HNode :=
  match cs with
  | .nil => none
  | .cons c rest =>
    match findFirstNode f c with
    | some m => some m
    | none => findFirstNodeF f rest
end

/-- Increment the head index of a path (used to shift forest paths). -/
def bumpHead : List Nat → List Nat
  | [] => []
  | i :: p => (i + 1) :: p

mutual
/-- Paths (child-index lists) of the nodes `findNodes` returns, in the
same order.  This is the path-level mirror of `findNodes`, used to state
claims about node positions (Go works with pointers instead). -/
def findPaths (f : HNode → Bool) (n : HNode) : List (List Nat) :=
  if f n then [[]]
  else
    match n with
    | .text _ => []
    | .elem _ _ cs => findPathsF f cs
/-- `findPaths` over a forest; the head of each path indexes the forest. -/
def findPathsF (f : HNode → Bool) (cs : HForest) : List (List Nat) :=
  match cs with
  | .nil => []
  | .cons c rest =>
    (findPaths f c).map (fun p => 0 :: p) ++ (findPathsF f rest).map bumpHead
end

mutual
/-- `findFirstNode` together with the path of the returned node. -/
def findFirstNodePath (f : HNode → Bool) (n : HNode) : Option (List Nat × HNode) :=
  if f n then some ([], n)
  else
    match n with
    | .text _ => none
    | .elem _ _ cs => findFirstNodePathF f cs
/-- `findFirstNodePath` over a forest. -/
def findFirstNodePathF (f : HNode → Bool) (cs : HForest) : Option (List Nat × HNode) :=
  match cs with
  | .nil => none
  | .cons c rest =>
    match findFirstNodePath f c with
    | some (p, m) => some (0 :: p, m)
    | none =>
      match findFirstNodePathF f rest with
      | some (p, m) => some (bumpHead p, m)
      | none => none
end

/-- The node at a path, if the path is valid. -/
def nodeAt? (n : HNode) (p : List Nat) : Option HNode :=
  match p with
  | [] => some n
  | i :: rest =>
    match (childrenL n).get? i with
    | none => none
    | some c => nodeAt? c rest

/-- Helper for `setAt`: replace within a child list. -/
def setAtL (setA : HNode → HNode) (cs : List HNode) (i : Nat) : List HNode :=
  match cs, i with
  | [], _ => []
  | c :: rest, 0 => setA c :: rest
  | c :: rest, j + 1 => c :: setAtL setA rest j

/-- Replace the subtree at a path (invalid paths leave the tree
unchanged).  This models Go's in-place mutation of a node found by a
search. -/
def setAt (n : HNode) (p : List Nat) (r : HNode) : HNode :=
  match p with
  | [] => r
  | i :: rest =>
    match n with
    | .text s => .text s
    | .elem t a cs =>
      .elem t a (forestOfList (setAtL (fun c => setAt c rest r) (forestToList cs) i))

/-- The previous sibling of the node at path p, as in Go's
`PrevSibling` (none at index 0 or at the root). -/
def prevSibling? (root : HNode) (p : List Nat) : Option HNode :=
  match p.getLast? with
  | none => none
  | some 0 => none
  | some (i + 1) =>
    match nodeAt? root p.dropLast with
    | none => none
    | some parent => (childrenL parent).get? i

mutual
/-- Text pieces of the tree in document order (data of text nodes). -/
def textPieces : HNode → List String
  | .text s => [s]
  | .elem _ _ cs => textPiecesF cs
/-- `textPieces` over a forest. -/
def textPiecesF : HForest → List String
  | .nil => []
  | .cons c rest => textPieces c ++ textPiecesF rest
end

/-- Modelled from the spec: the two-argument `getText` (textOf) of the
current html.go generation is not among the provided source files (the
included html.go is an earlier generation with a one-argument getText).
Per the spec it concatenates all descendant text content and, when the
flag is set, inserts a single space between text from different
subtrees so words do not run together. -/
def getText (n : HNode) (addSpace : Bool) : String :=
  if addSpace then String.intercalate " " ((textPieces n).filter (fun s => s ≠ ""))
  else String.join (textPieces n)

/-- `getText` on a possibly-nil node: Go's getText returns "" for nil. -/
def getTextO (n : Option HNode) (addSpace : Bool) : String :=
  match n with
  | none => ""
  | some m => getText m addSpace

mutual
/-- html.go `deleteAttr`: recursively delete the attribute from the node
and all of its descendants. -/
def deleteAttr (n : HNode) (attr : String) : HNode :=
  match n with
  | .text s => .text s
  | .elem t a cs => .elem t (a.filter (fun kv => kv.1 ≠ attr)) (deleteAttrF cs attr)
/-- `deleteAttr` over a forest. -/
def deleteAttrF (cs : HForest) (attr : String) : HForest :=
  match cs with
  | .nil => .nil
  | .cons c rest => .cons (deleteAttr c attr) (deleteAttrF rest attr)
end

/-! ## String and number helpers (models of Go standard library calls) -/

/-- Whether the string contains the given character
(strings.Contains with a one-character substring). -/
def strContainsChar (s : String) (c : Char) : Bool :=
  s.toList.any (fun x => x == c)

/-- Whether a character list starts with a given list. -/
def listStartsWith : List Char → List Char → Bool
  | _, [] => true
  | [], _ :: _ => false
  | c :: rest, p :: ps => c == p && listStartsWith rest ps

/-- Whether a character list contains a given list as a contiguous run. -/
def listHasInfix (l sub : List Char) : Bool :=
  if listStartsWith l sub then true
  else
    match l with
    | [] => false
    | _ :: rest => listHasInfix rest sub

/-- strings.Contains. -/
def strContainsSub (s sub : String) : Bool := listHasInfix s.toList sub.toList

/-- Whether a character list ends with a given list. -/
def listEndsWith (l sub : List Char) : Bool := listStartsWith l.reverse sub.reverse

/-- The last index at which sub occurs in l, if any. -/
def lastIndexAux (l sub : List Char) (i : Nat) : Option Nat :=
  match l with
  | [] => none
  | _ :: rest =>
    match lastIndexAux rest sub (i + 1) with
    | some j => some j
    | none => if listStartsWith l sub then some i else none

/-- Numeric value of a list of decimal digit characters. -/
def natOfDigits (l : List Char) : Nat :=
  l.foldl (fun a c => a * 10 + (c.toNat - 48)) 0

/-- Shared digit scan for `parseInt64`. -/
def parseIntDigits (l : List Char) (neg : Bool) : Except String Int :=
  if l.isEmpty then .error "invalid syntax"
  else if !(l.all Char.isDigit) then .error "invalid syntax"
  else
    let v : Nat := natOfDigits l
    if neg then
      if v ≤ 2 ^ 63 then .ok (-(v : Int)) else .error "value out of range"
    else
      if v ≤ 2 ^ 63 - 1 then .ok (v : Int) else .error "value out of range"

/-- strconv.ParseInt(s, 10, 64): optional sign, decimal digits, with the
int64 range check.  (Error texts are abbreviated.) -/
def parseInt64 (s : String) : Except String Int :=
  match s.toList with
  | '+' :: rest => parseIntDigits rest false
  | '-' :: rest => parseIntDigits rest true
  | l => parseIntDigits l false

/-- strconv.Atoi (identical to ParseInt base 10, 64-bit). -/
def goAtoi (s : String) : Except String Int := parseInt64 s

/-- Lowercase-hex digit test (the character class of the emoji regexp). -/
def isHexLower (c : Char) : Bool :=
  c.isDigit || ('a' ≤ c && c ≤ 'f')

/-- Value of one hex digit. -/
def hexDigitVal (c : Char) : Nat :=
  if c.isDigit then c.toNat - 48 else c.toNat - 87

/-- strconv.ParseUint(s, 16, 64) on a lowercase-hex string: none models
the out-of-range error. -/
def parseHexU64 (l : List Char) : Option Nat :=
  let v := l.foldl (fun a c => a * 16 + hexDigitVal c) 0
  if v < 2 ^ 64 then some v else none

/-- Go string(rune(v)) for v ≤ unicode.MaxRune: surrogate code points
become U+FFFD. -/
def goStringOfRune (v : Nat) : String :=
  if 0xD800 ≤ v && v < 0xE000 then String.mk [Char.ofNat 0xFFFD]
  else String.mk [Char.ofNat v]

/-- path.Base: the last element of the path after trailing slashes are
removed ("." for the empty string, "/" for all-slash strings). -/
def pathBase (s : String) : String :=
  if s = "" then "."
  else
    let r := s.toList.reverse.dropWhile (fun c => c == '/')
    if r.isEmpty then "/"
    else String.mk ((r.takeWhile (fun c => c != '/')).reverse)

/-- The html package's text/attribute escaping (& ' < > "). -/
def goEscapeChar (c : Char) : String :=
  if c == '&' then "&amp;"
  else if c == '\'' then "&#39;"
  else if c == '<' then "&lt;"
  else if c == '>' then "&gt;"
  else if c == '"' then "&#34;"
  else String.mk [c]

/-- Escape a whole string as the html package renders text and
attribute values. -/
def goEscape (s : String) : String :=
  String.join (s.toList.map goEscapeChar)

/-! ## Dates and instants (model of Go time) -/

/-- Proleptic Gregorian leap year. -/
def isLeapYear (y : Int) : Bool :=
  y % 4 == 0 && (y % 100 != 0 || y % 400 == 0)

/-- Days in a month of the given year. -/
def daysInMonth (m : Nat) (y : Int) : Nat :=
  if m == 2 then (if isLeapYear y then 29 else 28)
  else if m == 4 || m == 6 || m == 9 || m == 11 then 30
  else 31

/-- Days from the Unix epoch to the given civil date
(standard days-from-civil algorithm; floor division so years before 1
behave like Go's proleptic calendar). -/
def daysFromCivil (y : Int) (m d : Nat) : Int :=
  let y2 : Int := if m ≤ 2 then y - 1 else y
  let era : Int := Int.fdiv y2 400
  let yoe : Int := y2 - era * 400
  let mp : Nat := (m + 9) % 12
  let doy : Int := ((153 * mp + 2) / 5 : Nat) + (d : Int) - 1
  let doe : Int := yoe * 365 + Int.fdiv yoe 4 - Int.fdiv yoe 100 + doy
  era * 146097 + doe - 719468

/-- Nanoseconds since the Unix epoch of a civil date-time in UTC. -/
def dateToNs (y : Int) (mo d hh mi se : Nat) : Int :=
  (daysFromCivil y mo d * 86400 + (hh : Int) * 3600 + (mi : Int) * 60 + (se : Int))
    * 1000000000

/-- Go's zero time.Time (January 1, year 1, 00:00:00 UTC) as an instant. -/
def goZeroTimeNs : Int := dateToNs 1 1 1 0 0 0

/-- Wrap an integer to the signed 64-bit range, as Go arithmetic on
int64/time.Duration does. -/
def wrap64 (x : Int) : Int := (x + 2 ^ 63) % 2 ^ 64 - 2 ^ 63

/-- math.MaxInt64. -/
def maxI64 : Int := 2 ^ 63 - 1

example : daysFromCivil 1970 1 1 = 0 := by decide
example : daysFromCivil 2020 3 1 = 18322 := by decide

/-! ## RFC 3339 timestamps (model of time.Parse(time.RFC3339, s)) -/

/-- Parse an RFC 3339 offset suffix: Z/z or ±hh:mm, as seconds. -/
def rfcOffset : List Char → Option Int
  | ['Z'] => some 0
  | ['z'] => some 0
  | sign :: o1 :: o2 :: ':' :: o3 :: o4 :: [] =>
    if (sign == '+' || sign == '-') && [o1, o2, o3, o4].all Char.isDigit then
      let v : Int := (natOfDigits [o1, o2] : Int) * 3600 + (natOfDigits [o3, o4] : Int) * 60
      some (if sign == '+' then v else -v)
    else none
  | _ => none

/-- Parse an RFC 3339 fractional-second part followed by an offset:
(nanoseconds, offset seconds). -/
def rfcFrac (l : List Char) : Option (Int × Int) :=
  let ds := l.takeWhile Char.isDigit
  let rest := l.dropWhile Char.isDigit
  if ds.isEmpty || ds.length > 9 then none
  else (rfcOffset rest).map (fun o => ((natOfDigits ds * 10 ^ (9 - ds.length) : Nat), o))

/-- Fractional part (optional) and offset of an RFC 3339 tail. -/
def rfcFracOffset (l : List Char) : Option (Int × Int) :=
  match l with
  | '.' :: rest => rfcFrac rest
  | ',' :: rest => rfcFrac rest
  | _ => (rfcOffset l).map (fun o => (0, o))

/-- RFC 3339 parsing on the character list. -/
def rfc3339Chars : List Char → Option Int
  | y1 :: y2 :: y3 :: y4 :: '-' :: a1 :: a2 :: '-' :: b1 :: b2 :: 'T' ::
      h1 :: h2 :: ':' :: m1 :: m2 :: ':' :: s1 :: s2 :: rest =>
    if [y1, y2, y3, y4, a1, a2, b1, b2, h1, h2, m1, m2, s1, s2].all Char.isDigit then
      let y : Int := (natOfDigits [y1, y2, y3, y4] : Int)
      let mo := natOfDigits [a1, a2]
      let d := natOfDigits [b1, b2]
      let hh := natOfDigits [h1, h2]
      let mi := natOfDigits [m1, m2]
      let se := natOfDigits [s1, s2]
      if 1 ≤ mo && mo ≤ 12 && 1 ≤ d && d ≤ daysInMonth mo y &&
          hh ≤ 23 && mi ≤ 59 && se ≤ 59 then
        match rfcFracOffset rest with
        | none => none
        | some (fracNs, offSec) =>
          some (dateToNs y mo d hh mi se + fracNs - offSec * 1000000000)
      else none
    else none
  | _ => none

/-- time.Parse(time.RFC3339, s) as an instant (none models the parse
error). -/
def rfc3339ToNs (s : String) : Option Int := rfc3339Chars s.toList

example : rfc3339ToNs "2020-01-02T03:04:05Z" =
    some (dateToNs 2020 1 2 3 4 5) := by decide

/-! ## parse.go (oldest generation kept in the tree): parseTime -/

/-- The anchored durationRegexp `^(\d+)([smhd])$`: the digit run and the
unit character, when the whole string matches. -/
def durMatch (s : String) : Option (List Char × Char) :=
  let l := s.toList
  match l.getLast? with
  | none => none
  | some u =>
    if u == 's' || u == 'm' || u == 'h' || u == 'd' then
      let ds := l.dropLast
      if !ds.isEmpty && ds.all Char.isDigit then some (ds, u) else none
    else none

/-- Month number of a three-letter abbreviation; Go's layout matching is
ASCII case-insensitive. -/
def monthOfAbbr (a b c : Char) : Option Nat :=
  let t := String.mk [a.toLower, b.toLower, c.toLower]
  if t = "jan" then some 1
  else if t = "feb" then some 2
  else if t = "mar" then some 3
  else if t = "apr" then some 4
  else if t = "may" then some 5
  else if t = "jun" then some 6
  else if t = "jul" then some 7
  else if t = "aug" then some 8
  else if t = "sep" then some 9
  else if t = "oct" then some 10
  else if t = "nov" then some 11
  else if t = "dec" then some 12
  else none

/-- The day field of the "Jan 2" layout: one or two digits and nothing
after them. -/
def jan2Day : List Char → Option Nat
  | [d1] => if d1.isDigit then some (natOfDigits [d1]) else none
  | [d1, d2] => if d1.isDigit && d2.isDigit then some (natOfDigits [d1, d2]) else none
  | _ => none

/-- time.Parse("Jan 2", s): month abbreviation, one space, a one- or
two-digit day, validated against the month's length in year 0 (all
other fields default to their zero values: year 0, 00:00:00 UTC). -/
def parseJan2 (s : String) : Option (Nat × Nat) :=
  match s.toList with
  | a :: b :: c :: ' ' :: rest =>
    match monthOfAbbr a b c with
    | none => none
    | some m =>
      match jan2Day rest with
      | none => none
      | some d => if 1 ≤ d && d ≤ daysInMonth m 0 then some (m, d) else none
  | _ => none

/-- The switch over the unit character of a relative duration, in
nanoseconds: second, minute, hour, or 24 hours for "d" (durMatch only
ever passes one of the four). -/
def unitNsOf (u : Char) : Int :=
  if u == 's' then 1000000000
  else if u == 'm' then 60000000000
  else if u == 'h' then 3600000000000
  else 86400000000000

/-- parse.go `parseTime`: a Twitter-supplied "timestamp", either a
relative duration like "23m" (tried first) or a month-day date like
"Jul 9".  `now` is the current instant in nanoseconds.  Duration
multiplication wraps at 64 bits as Go's does. -/
def parseTime (s : String) (now : Int) : Except String Int :=
  match durMatch s with
  | some (ds, u) =>
    match goAtoi (String.mk ds) with
    | .error _ => .error "bad quantity"
    | .ok q => .ok (now + wrap64 (wrap64 ((-1) * q) * unitNsOf u))
  | none =>
    match parseJan2 s with
    | some (m, d) => .ok (dateToNs 0 m d 0 0 0)
    | none => .error "unknown format"

/-! ## net/url model and util.go absoluteURL -/

/-- ASCII control byte (url.Parse rejects these). -/
def isCtlByte (c : Char) : Bool := c.toNat < 0x20 || c.toNat == 0x7f

/-- Cut a character list at the first occurrence of c: the part before
it and, when c occurs, the part after it. -/
def cutFirst (c : Char) : List Char → List Char × Option (List Char)
  | [] => ([], none)
  | x :: rest =>
    if x == c then ([], some rest)
    else
      match cutFirst c rest with
      | (a, b) => (x :: a, b)

/-- Result of url's getscheme: an error (colon at position 0), a scheme
with the remainder, or no scheme at all. -/
inductive SchemeRes where
  | bad
  | found (scheme : List Char) (rest : List Char)
  | noScheme

/-- url getscheme: a leading run of [a-zA-Z][a-zA-Z0-9+.-]* before a
colon (a first character that is a digit, plus, dash or dot means no
scheme at all; a leading colon is an error). -/
def getSchemeAux : List Char → List Char → Nat → SchemeRes
  | [], _, _ => .noScheme
  | c :: rest, acc, i =>
    if c.isAlpha then getSchemeAux rest (c :: acc) (i + 1)
    else if c.isDigit || c == '+' || c == '-' || c == '.' then
      (if i == 0 then .noScheme else getSchemeAux rest (c :: acc) (i + 1))
    else if c == ':' then
      (if i == 0 then .bad else .found acc.reverse rest)
    else .noScheme

/-- The fields of url.URL that matter here.  `opq` is URL.Opaque;
percent-escaping, userinfo and port validation are out of scope for the
URLs this program handles. -/
structure GoURL where
  scheme : String := ""
  opq : String := ""
  host : String := ""
  omitHost : Bool := false
  path : String := ""
  query : Option String := none
  fragment : String := ""
deriving DecidableEq, Repr

/-- Whether a character list starts with the given character. -/
def startsWithChar : List Char → Char → Bool
  | [], _ => false
  | x :: _, c => x == c

/-- Whether the first path segment (before any '/') contains a colon
(an error for schemeless relative URLs in url.Parse). -/
def firstSegHasColon (l : List Char) : Bool :=
  (l.takeWhile (fun c => c != '/')).any (fun c => c == ':')

/-- The rest of url.Parse once fragment and scheme are split off. -/
def urlParseRest (scheme : String) (rest : List Char) (fragPart : Option (List Char)) :
    Option GoURL :=
  let (rest2, queryPart) := cutFirst '?' rest
  let frag := match fragPart with | none => "" | some f => String.mk f
  let q : Option String := queryPart.map String.mk
  if scheme ≠ "" && !(startsWithChar rest2 '/') then
    -- rootless path after a scheme: treated as opaque
    some { scheme := scheme, opq := String.mk rest2, query := q, fragment := frag }
  else if scheme = "" && !(startsWithChar rest2 '/') && firstSegHasColon rest2 then
    none
  else if listStartsWith rest2 ['/', '/'] &&
      (scheme ≠ "" || !(listStartsWith rest2 ['/', '/', '/'])) then
    let after := rest2.drop 2
    let host := after.takeWhile (fun c => c != '/')
    let path := after.dropWhile (fun c => c != '/')
    some { scheme := scheme, host := String.mk host, path := String.mk path,
           query := q, fragment := frag }
  else
    some { scheme := scheme, omitHost := scheme ≠ "", path := String.mk rest2,
           query := q, fragment := frag }

/-- url.Parse, to the depth this program exercises it. -/
def urlParse (s : String) : Option GoURL :=
  let l := s.toList
  if l.any isCtlByte then none
  else
    let (body, fragPart) := cutFirst '#' l
    match getSchemeAux body [] 0 with
    | .bad => none
    | .found sc r => urlParseRest (String.mk (sc.map Char.toLower)) r fragPart
    | .noScheme => urlParseRest "" body fragPart

/-- url.URL.String (without percent-escaping, which the URLs in scope
do not need). -/
def urlString (u : GoURL) : String :=
  (if u.scheme ≠ "" then u.scheme ++ ":" else "") ++
  (if u.opq ≠ "" then u.opq
   else
     (if (u.scheme ≠ "" || u.host ≠ "") && !(u.omitHost && u.host = "") &&
         (u.host ≠ "" || u.path ≠ "") then "//" ++ u.host
      else if u.host ≠ "" then u.host else "") ++
     (if u.path ≠ "" && !(startsWithChar u.path.toList '/') && u.host ≠ "" then "/" else "") ++
     u.path) ++
  (match u.query with | none => "" | some q => "?" ++ q) ++
  (if u.fragment ≠ "" then "#" ++ u.fragment else "")

/-- util.go `absoluteURL`: rewrite s to an absolute twitter.com URL if
relative; return it unchanged if empty, unparseable or already
absolute. -/
def absoluteURL (s : String) : String :=
  if s = "" then s
  else
    match urlParse s with
    | none => s
    | some u =>
      if u.scheme ≠ "" then s
      else urlString { u with scheme := "https", host := "twitter.com" }

example : absoluteURL "/biff/status/123" = "https://twitter.com/biff/status/123" := by decide
example : absoluteURL "https://example.com/a" = "https://example.com/a" := by decide

/-! ## The two parse.go regular expressions -/

/-- The capture of emojiRegexp
`^https://.*/emoji/v2/svg/([0-9a-f]+)\.svg$` when the URL matches: the
hex code-point digits.  Since the hex class cannot contain '/', only the
last occurrence of the "/emoji/v2/svg/" marker can match, and `.` does
not match a newline. -/
def emojiCodePointHex (s : String) : Option (List Char) :=
  let l := s.toList
  if listEndsWith l ".svg".toList then
    let t := l.take (l.length - 4)
    match lastIndexAux t "/emoji/v2/svg/".toList 0 with
    | none => none
    | some i =>
      let pre := t.take i
      let hex := t.drop (i + 14)
      if 8 ≤ i && listStartsWith l "https://".toList &&
          !(pre.any (fun c => c == '\n')) && !hex.isEmpty && hex.all isHexLower then
        some hex
      else none
  else none

/-- imgSizeRegexp `_\d+x\d+\.jpg$` replaced by repl
(ReplaceAllLiteralString; the anchored pattern matches at most once). -/
def imgSizeReplace (s : String) (repl : String) : String :=
  let l := s.toList
  if listEndsWith l ".jpg".toList then
    let r := (l.take (l.length - 4)).reverse
    let d2 := r.takeWhile Char.isDigit
    let r1 := r.drop d2.length
    if !d2.isEmpty && startsWithChar r1 'x' then
      let r2 := r1.drop 1
      let d1 := r2.takeWhile Char.isDigit
      let r3 := r2.drop d1.length
      if !d1.isEmpty && startsWithChar r3 '_' then
        String.mk ((r3.drop 1).reverse) ++ repl
      else s
    else s
  else s

example : imgSizeReplace "https://x/profile_images/ab_200x200.jpg" "_400x400.jpg" =
    "https://x/profile_images/ab_400x400.jpg" := by decide
example : imgSizeReplace "https://x/a.png" "_400x400.jpg" = "https://x/a.png" := by decide

/-! ## parse.go (current generation): data types -/

/-- parse.go `parseOptions`. -/
structure parseOptions where
  simplify : Bool
deriving DecidableEq, Repr

/-- parse.go `profile`: information about a user. -/
structure profile where
  User : String := ""
  Name : String := ""
  Icon : String := ""
  Image : String := ""
deriving DecidableEq, Repr

/-- parse.go `tweet`: a single tweet.  `Time` is an instant in
nanoseconds.  `contentTree` is the content tree that Go renders into
`Content` and then discards; the embedding keeps it so that claims
about the structure of the content can be stated (by construction
`Content` is always the rendering of `contentTree`). -/
structure tweet where
  ID : Int := 0
  Href : String := ""
  User : String := ""
  Name : String := ""
  Time : Int := goZeroTimeNs
  Content : String := ""
  Text : String := ""
  ReplyUsers : List String := []
  contentTree : HNode := .elem "div" [] .nil
deriving DecidableEq

/-- parse.go `(*tweet).reply`:
`len(ReplyUsers) > 0 && (len(ReplyUsers) > 1 || ReplyUsers[0] != User)`,
so self-replies (a single reply user equal to the tweet's author) are
not treated as replies. -/
def tweet.reply (t : tweet) : Bool :=
  decide (0 < t.ReplyUsers.length) &&
    (decide (1 < t.ReplyUsers.length) || t.ReplyUsers.head?.getD "" != t.User)

/-! ## parse.go (current generation): content rewriting passes -/

/-- A `<br>` element. -/
def brNode : HNode := .elem "br" [] .nil

/-- An `<hr>` element. -/
def hrNode : HNode := .elem "hr" [] .nil

/-- Append a list of nodes in front of a forest. -/
def forestAppendL : List HNode → HForest → HForest
  | [], f => f
  | x :: xs, f => .cons x (forestAppendL xs f)

/-- The emoji wrapper test of `fixEmoji`: a div with the fixed
inline-height style and a nonempty aria-label. -/
def isEmojiDiv (m : HNode) : Bool :=
  isElement m "div" && getAttr m "style" == "height: 1.2em;" && getAttr m "aria-label" != ""

/-- The emoji image test of `fixEmoji`: an img whose src matches
emojiRegexp. -/
def emojiImgPred (m : HNode) : Bool :=
  isElement m "img" && (emojiCodePointHex (getAttr m "src")).isSome

mutual
/-- parse.go `fixEmoji`: replace each emoji wrapper div (children of a
matched div are not examined, as in `findNodes`) by a text node holding
the actual code point; wrappers whose code point cannot be determined
are left untouched. -/
def fixEmoji (n : HNode) : HNode :=
  if isEmojiDiv n then
    match findFirstNode emojiImgPred n with
    | none => n
    | some img =>
      match emojiCodePointHex (getAttr img "src") with
      | none => n
      | some hex =>
        match parseHexU64 hex with
        | none => n
        | some v => if v > 0x10FFFF then n else .text (goStringOfRune v)
  else
    match n with
    | .text s => .text s
    | .elem t a cs => .elem t a (fixEmojiF cs)
/-- `fixEmoji` over a forest. -/
def fixEmojiF : HForest → HForest
  | .nil => .nil
  | .cons c rest => .cons (fixEmoji c) (fixEmojiF rest)
end

/-- strings.Split(s, "\n") on characters. -/
def splitNlAux : List Char → List Char → List String
  | [], cur => [String.mk cur.reverse]
  | c :: rest, cur =>
    if c == '\n' then String.mk cur.reverse :: splitNlAux rest []
    else splitNlAux rest (c :: cur)

/-- strings.Split(s, "\n"). -/
def splitNl (s : String) : List String := splitNlAux s.toList []

/-- The node splice `addLineBreaks` builds for the parts of one split
text node: each nonempty part becomes a text node, and every boundary
between parts becomes a `<br>` followed by a `"\n"` text node. -/
def albParts : List String → List HNode
  | [] => []
  | [p] => if p ≠ "" then [.text p] else []
  | p :: q :: rest =>
    (if p ≠ "" then [.text p] else []) ++ [brNode, .text "\n"] ++ albParts (q :: rest)

mutual
/-- parse.go `addLineBreaks`: split text nodes on newlines and insert
`<br>` tags.  The matched text nodes are those of the original tree;
the `"\n"` text nodes the splice inserts are not reprocessed (Go
collects the matches up front).  A bare text root is returned unchanged
(Go would dereference a nil parent; the function is only ever called on
a div). -/
def addLineBreaks (n : HNode) : HNode :=
  match n with
  | .text s => .text s
  | .elem t a cs => .elem t a (albForest cs)
/-- `addLineBreaks` over a forest: each text child containing a newline
is replaced by its splice. -/
def albForest : HForest → HForest
  | .nil => .nil
  | .cons c rest => forestAppendL (albChild c) (albForest rest)
/-- One child of `addLineBreaks`: a list since text nodes can expand. -/
def albChild : HNode → List HNode
  | .text s => if strContainsChar s '\n' then albParts (splitNl s) else [.text s]
  | .elem t a cs => [.elem t a (albForest cs)]
end

mutual
/-- parse.go `rewriteRelativeLinks`: rewrite every href attribute of
every `<a>` element (children of a matched `<a>` are not examined, as
in `findNodes`). -/
def rewriteRelativeLinks (n : HNode) : HNode :=
  match n with
  | .text s => .text s
  | .elem t a cs =>
    if t == "a" then
      .elem t (a.map (fun kv => if kv.1 == "href" then (kv.1, absoluteURL kv.2) else kv)) cs
    else .elem t a (rrlForest cs)
/-- `rewriteRelativeLinks` over a forest. -/
def rrlForest : HForest → HForest
  | .nil => .nil
  | .cons c rest => .cons (rewriteRelativeLinks c) (rrlForest rest)
end

/-- The link pattern of `inlineUserLinks`: an `<a>` whose single child
is a text node reading "@…" with no space. -/
def isUserLink (m : HNode) : Bool :=
  match m with
  | .elem t _ cs =>
    t == "a" &&
      (match forestToList cs with
       | [only] =>
         isText only && startsWithChar (dataOf only).toList '@' &&
           !(strContainsChar (dataOf only) ' ')
       | _ => false)
  | .text _ => false

/-- Whether a node is a `<span>` with a user-link child (the
parent/grandparent shape `inlineUserLinks` looks for). -/
def spanHasUserLink (m : HNode) : Bool :=
  isElement m "span" && (childrenL m).any isUserLink

mutual
/-- parse.go `inlineUserLinks`: each div that wraps (through a span) a
single user link has its tag changed to span.  The matches are decided
on the original tree, as Go collects them up front; only tags change,
so positions are stable. -/
def inlineUserLinks (n : HNode) : HNode :=
  match n with
  | .text s => .text s
  | .elem t a cs =>
    .elem (if t == "div" && (forestToList cs).any spanHasUserLink then "span" else t)
      a (iulForest cs)
/-- `inlineUserLinks` over a forest. -/
def iulForest : HForest → HForest
  | .nil => .nil
  | .cons c rest => .cons (inlineUserLinks c) (iulForest rest)
end

mutual
/-- The poster URLs of the videos `fixVideos` iterates over (pruned
pre-order, as in `findNodes`; empty posters are skipped). -/
def collectPosters (n : HNode) : List String :=
  if isElement n "video" then
    (if getAttr n "poster" != "" then [getAttr n "poster"] else [])
  else
    match n with
    | .text _ => []
    | .elem _ _ cs => collectPostersF cs
/-- `collectPosters` over a forest. -/
def collectPostersF : HForest → List String
  | .nil => []
  | .cons c rest => collectPosters c ++ collectPostersF rest
end

mutual
/-- The controls half of `fixVideos`: append a bare "controls"
attribute to each video element whose src is not a blob URL (children
of a matched video are not examined). -/
def addControls (n : HNode) : HNode :=
  match n with
  | .text s => .text s
  | .elem t a cs =>
    if t == "video" then
      if listStartsWith (getAttrL a "src").toList "blob:".toList then .elem t a cs
      else .elem t (a ++ [("controls", "")]) cs
    else .elem t a (acForest cs)
/-- `addControls` over a forest. -/
def acForest : HForest → HForest
  | .nil => .nil
  | .cons c rest => .cons (addControls c) (acForest rest)
end

mutual
/-- The removal half of `fixVideos` for one poster URL: delete every
`<img src=poster>` (with its subtree) from the tree. -/
def rpiNode (p : String) (n : HNode) : HNode :=
  match n with
  | .text s => .text s
  | .elem t a cs => .elem t a (rpiForest p cs)
/-- `rpiNode` over a forest: matching img children are dropped. -/
def rpiForest (p : String) : HForest → HForest
  | .nil => .nil
  | .cons c rest =>
    if matchFunc "img" ["src=" ++ p] c then rpiForest p rest
    else .cons (rpiNode p c) (rpiForest p rest)
end

/-- parse.go `fixVideos`: add a controls attribute to playable videos
and remove the poster screenshots.  Go interleaves the two steps per
video over a precomputed node list; on trees where no removed image
contains a video (every tree this program produces), doing all the
controls first and then all the removals is the same. -/
def fixVideos (n : HNode) : HNode :=
  (collectPosters n).foldl (fun t p => rpiNode p t) (addControls n)

mutual
/-- The svg-removal half of `simplifyContent`: drop every `<svg>`
element (with its subtree; children of a matched svg are not examined,
as in `findNodes`).  The root itself is never an svg where this is
called (Go would dereference a nil parent). -/
def removeSvg (n : HNode) : HNode :=
  match n with
  | .text s => .text s
  | .elem t a cs => .elem t a (removeSvgF cs)
/-- `removeSvg` over a forest. -/
def removeSvgF : HForest → HForest
  | .nil => .nil
  | .cons c rest =>
    if isElement c "svg" then removeSvgF rest
    else .cons (removeSvg c) (removeSvgF rest)
end

/-- parse.go `simplifyContent`: strip style and tracking attributes and
drop svg elements. -/
def simplifyContent (root : HNode) : HNode :=
  removeSvg
    (deleteAttr
      (deleteAttr
        (deleteAttr
          (deleteAttr
            (deleteAttr (deleteAttr root "style") "aria-hidden")
            "data-focusable")
          "data-testid")
        "draggable")
      "role")

/-- The profile-image test shared by `parseProfile` and
`improveQuoteTweetHeader`. -/
def profileImgPred (m : HNode) : Bool :=
  isElement m "img" && strContainsSub (getAttr m "src") "/profile_images/"

mutual
/-- The boilerplate-blanking loop at the end of
`improveQuoteTweetHeader`: text nodes reading exactly "Quote Tweet",
"Show this poll" or "Show this thread" have their data set to "". -/
def blankUseless (n : HNode) : HNode :=
  match n with
  | .text s =>
    if s == "Quote Tweet" || s == "Show this poll" || s == "Show this thread" then .text ""
    else .text s
  | .elem t a cs => .elem t a (blankUselessF cs)
/-- `blankUseless` over a forest. -/
def blankUselessF : HForest → HForest
  | .nil => .nil
  | .cons c rest => .cons (blankUseless c) (blankUselessF rest)
end

/-- parse.go `improveQuoteTweetHeader`: if a `<time>` element sits in a
span inside two divs (a quoted-tweet header), collapse the outer div's
content into its profile image (if any) followed by a single bolded
text node with all the text, then blank known boilerplate labels.  The
embed this runs on is detached, so parents above its root really are
nil. -/
def improveQuoteTweetHeader (n : HNode) : HNode :=
  match findFirstNodePath (matchFunc "time" []) n with
  | none => n
  | some (p, _) =>
    if p.length < 3 then n
    else
      let p1 := p.dropLast
      let p2 := p1.dropLast
      let p3 := p2.dropLast
      if isElementO (nodeAt? n p1) "span" && isElementO (nodeAt? n p2) "div" &&
          isElementO (nodeAt? n p3) "div" then
        match nodeAt? n p3 with
        | none => n
        | some d =>
          let s := " " ++ getText d true
          let img := findFirstNode profileImgPred d
          let newKids : List HNode :=
            (match img with | some im => [im] | none => []) ++
              [.elem "b" [] (.cons (.text s) .nil)]
          let d2 : HNode := .elem (tagOf d) (attrsOf d) (forestOfList newKids)
          blankUseless (setAt n p3 d2)
      else n

/-- The card test of `improveLinkCard`. -/
def linkCardPred (m : HNode) : Bool :=
  isElement m "div" &&
    (getAttr m "data-testid" == "card.layoutSmall.detail" ||
     getAttr m "data-testid" == "card.layoutLarge.detail")

/-- parse.go `improveLinkCard`: in a three-child link card, wrap the
first text of the title child in `<b>` and the first text of the
domain child in `<i>` (each replaced in place). -/
def improveLinkCard (n : HNode) : HNode :=
  match findFirstNodePath linkCardPred n with
  | none => n
  | some (p, cn) =>
    match childrenL cn with
    | [c0, _, c2] =>
      let n1 :=
        match findFirstNodePath isText c0 with
        | none => n
        | some (tp, title) => setAt n (p ++ 0 :: tp) (.elem "b" [] (.cons title .nil))
      match findFirstNodePath isText c2 with
      | none => n1
      | some (dp, domain) => setAt n1 (p ++ 2 :: dp) (.elem "i" [] (.cons domain .nil))
    | _ => n

/-- Void elements of the html package's renderer. -/
def isVoidTag (t : String) : Bool :=
  t == "area" || t == "base" || t == "br" || t == "col" || t == "embed" ||
    t == "hr" || t == "img" || t == "input" || t == "keygen" || t == "link" ||
    t == "meta" || t == "param" || t == "source" || t == "track" || t == "wbr"

/-- Attribute rendering of html.Render. -/
def renderAttrs (a : List (String × String)) : String :=
  String.join (a.map (fun kv => " " ++ kv.1 ++ "=\"" ++ goEscape kv.2 ++ "\""))

mutual
/-- html.Render on the element/text subset this program produces
(raw-text elements such as script are out of scope): text is escaped,
void elements self-close and error when they have children. -/
def goRenderE (n : HNode) : Except String String :=
  match n with
  | .text s => .ok (goEscape s)
  | .elem t a cs =>
    if isVoidTag t then
      match cs with
      | .nil => .ok ("<" ++ t ++ renderAttrs a ++ "/>")
      | .cons _ _ => .error ("void element <" ++ t ++ "> has child nodes")
    else
      match goRenderF cs with
      | .error e => .error e
      | .ok inner => .ok ("<" ++ t ++ renderAttrs a ++ ">" ++ inner ++ "</" ++ t ++ ">")
/-- `goRenderE` over a forest. -/
def goRenderF (cs : HForest) : Except String String :=
  match cs with
  | .nil => .ok ""
  | .cons c rest =>
    match goRenderE c with
    | .error e => .error e
    | .ok s =>
      match goRenderF rest with
      | .error e => .error e
      | .ok s2 => .ok (s ++ s2)
end

/-- The fixed transform pipeline parseTweet applies to the assembled
content div (parse.go lines: fixVideos; rewriteRelativeLinks;
inlineUserLinks; addLineBreaks; deleteAttr "class"; simplifyContent
when the simplify option is set). -/
def rewritePipeline (opts : parseOptions) (content : HNode) : HNode :=
  let c1 := fixVideos content
  let c2 := rewriteRelativeLinks c1
  let c3 := inlineUserLinks c2
  let c4 := addLineBreaks c3
  let c5 := deleteAttr c4 "class"
  if opts.simplify then simplifyContent c5 else c5

/-! ## parse.go (current generation): parseProfile, parseTweet, parseTimeline -/

/-- The username test used by parseProfile, parseTweet and the
reply-context scan: a text node of at least two bytes starting with
'@'. -/
def atTextPred (m : HNode) : Bool :=
  isText m &&
    (match (dataOf m).toList with
     | c :: _ :: _ => c == '@'
     | _ => false)

/-- parse.go `parseProfile`, rooted at the primary column node.  As in
Go, the partially filled profile is returned alongside any error.
Parent chains are resolved inside the column (parents above it are
modelled as nil). -/
def parseProfile (n : HNode) : profile × Option String :=
  let pr0 : profile := {}
  match findFirstNodePath atTextPred n with
  | none => (pr0, some "didn't find username")
  | some (up, un) =>
    let pr1 := { pr0 with User := String.mk ((dataOf un).toList.drop 1) }
    if up.length < 3 then (pr1, some "didn't find full name")
    else
      let p3 := up.dropLast.dropLast.dropLast
      let pr2 := { pr1 with Name := getTextO (prevSibling? n p3) false }
      match findFirstNode profileImgPred n with
      | none => (pr2, some "didn't find profile image")
      | some img =>
        let image := imgSizeReplace (getAttr img "src") "_400x400.jpg"
        ({ pr2 with Image := image, Icon := imgSizeReplace image "_normal.jpg" }, none)

/-- The retweet attribution banner parseTweet prepends: a bold link to
the tweet naming its author. -/
def bannerFor (nm us hr : String) : HNode :=
  .elem "b" []
    (.cons (.elem "a" [("href", hr)] (.cons (.text (nm ++ " (@" ++ us ++ ")")) .nil)) .nil)

/-- The reply-users scan of parseTweet's four-child case. -/
def replyUsersOf (r0 : HNode) : List String :=
  (findNodes atTextPred r0).map (fun m => String.mk ((dataOf m).toList.drop 1))

/-- The tail of parseTweet after text and embed have been selected:
assemble the content div (attribution banner for retweets, the text
child, and the processed embed when nonempty), run the rewrite
pipeline, and render. -/
def parseTweetAssemble (tw : tweet) (timelineUser : String) (opts : parseOptions)
    (txt embed : HNode) : tweet × Option String :=
  let bannerKids : List HNode :=
    if tw.User != timelineUser then [bannerFor tw.Name tw.User tw.Href, brNode] else []
  let embedKids : List HNode :=
    if !(childrenL embed).isEmpty then
      [hrNode, brNode, improveLinkCard (improveQuoteTweetHeader embed)]
    else []
  let content := rewritePipeline opts (.elem "div" [] (forestOfList (bannerKids ++ txt :: embedKids)))
  match goRenderE content with
  | .error e => (tw, some ("failed rendering text: " ++ e))
  | .ok rendered =>
    ({ tw with Content := rendered, Text := getText content true, contentTree := content }, none)

/-- parseTweet's strict child-count switch over the body: exactly 3
children means (text, embed, footer); exactly 4 means (reply-context,
text, embed, footer) with the reply users extracted from the first
child; anything else is an error naming the count. -/
def parseTweetBody (tw : tweet) (timelineUser : String) (opts : parseOptions)
    (body : HNode) : tweet × Option String :=
  match childrenL body with
  | [t0, e0, _] => parseTweetAssemble tw timelineUser opts t0 e0
  | [r0, t0, e0, _] =>
    parseTweetAssemble { tw with ReplyUsers := replyUsersOf r0 } timelineUser opts t0 e0
  | bs => (tw, some ("body contains " ++ toString bs.length ++ " children; want 3 or 4"))

/-- parse.go `parseTweet`, on the tweet container node.  The Go
function reads parents through pointers; here the fixed positions are
paths inside the container (the left column is child 0, the main column
child 1, its header child 0), and parents above the container are
modelled as nil.  Each error branch returns the partially filled tweet,
exactly as Go does. -/
def parseTweet (n : HNode) (timelineUser : String) (opts : parseOptions) :
    tweet × Option String :=
  let tw0 : tweet := {}
  match n with
  | .text _ => (tw0, some "no right column")
  | .elem nt na ncs =>
    match forestToList ncs with
    | lc :: mn0 :: nrest =>
      let mn := fixEmoji mn0
      let nT : HNode := .elem nt na (forestOfList (lc :: mn :: nrest))
      match childrenL mn with
      | [] => (tw0, some "no header")
      | head :: mrest =>
        match findFirstNodePath (matchFunc "time" ["datetime"]) head with
        | none => (tw0, some "failed finding time")
        | some (tp, tm) =>
          match rfc3339ToNs (getAttr tm "datetime") with
          | none => (tw0, some "cannot parse datetime")
          | some tns =>
            let tw1 := { tw0 with Time := tns }
            match nodeAt? nT ((1 :: 0 :: tp).dropLast) with
            | none => (tw1, some "failed finding link")
            | some ln =>
              if !(isElement ln "a") then (tw1, some "failed finding link")
              else
                let tw2 := { tw1 with Href := absoluteURL (getAttr ln "href") }
                match parseInt64 (pathBase tw2.Href) with
                | .error e => (tw2, some ("failed parsing ID: " ++ e))
                | .ok tid =>
                  let tw3 := { tw2 with ID := tid }
                  match findFirstNodePath atTextPred head with
                  | none => (tw3, some "didn't find username")
                  | some (up, un) =>
                    let tw4 := { tw3 with User := String.mk ((dataOf un).toList.drop 1) }
                    if up.isEmpty then (tw4, some "didn't find full name")
                    else
                      let p3 := (1 :: 0 :: up).dropLast.dropLast.dropLast
                      let tw5 := { tw4 with Name := getTextO (prevSibling? nT p3) false }
                      match mrest with
                      | [] => (tw5, some "no body")
                      | body :: _ => parseTweetBody tw5 timelineUser opts body
    | _ => (tw0, some "no right column")

/-- The id-or-index tag parseTimeline puts in a failed tweet's error
message. -/
def tweetErrId (tw : tweet) (i : Nat) : String :=
  if tw.ID > 0 then toString tw.ID else "at index " ++ toString i

/-- parseTimeline's tweet loop: stop at the first tweet that fails to
parse, wrapping its error; otherwise collect the tweets in order. -/
def parseTweetLoop (user : String) (opts : parseOptions) :
    Nat → List HNode → Except String (List tweet)
  | _, [] => .ok []
  | i, tn :: rest =>
    match parseTweet tn user opts with
    | (tw, some e) => .error ("failed parsing tweet " ++ tweetErrId tw i ++ ": " ++ e)
    | (tw, none) =>
      match parseTweetLoop user opts (i + 1) rest with
      | .error e => .error e
      | .ok ts => .ok (tw :: ts)

/-- parse.go `parseTimeline` on an already-parsed document tree
(html.Parse is the external acquisition boundary).  The error case
corresponds to Go returning a nil tweet slice together with a non-nil
error: an error never carries a partial tweet list. -/
def parseTimeline (root : HNode) (opts : parseOptions) :
    profile × Except String (List tweet) :=
  match findFirstNode (matchFunc "div" ["data-testid=primaryColumn"]) root with
  | none => ({}, .error "didn't find primary column")
  | some col =>
    match parseProfile col with
    | (prof, some e) => (prof, .error ("failed parsing profile: " ++ e))
    | (prof, none) =>
      (prof, parseTweetLoop prof.User opts 0
        (findNodes (matchFunc "div" ["data-testid=tweet"]) col))

/-! ## util.go userURL/mobileURL and the two getTimeline generations -/

/-- util.go `userURL`: the canonical timeline URL. -/
def userURL (user : String) : String := "https://twitter.com/" ++ user

/-- util.go `mobileURL`: rewrite to mobile.twitter.com, or "" for
non-twitter URLs. -/
def mobileURL (u : String) : String :=
  match urlParse u with
  | none => ""
  | some url =>
    let url2 := if url.host == "twitter.com" then { url with host := "mobile.twitter.com" } else url
    if url2.host != "mobile.twitter.com" then "" else urlString url2

/-- The tweet fields getTimeline reads (id and author). The other
fields ride along unchanged and play no part in pagination or
deduplication. -/
structure ptweet where
  id : Int
  user : String
deriving DecidableEq, Repr

/-- The profile field getTimeline reads. -/
structure pprofile where
  user : String
deriving DecidableEq, Repr

/-- One fetch-and-parse step as the part_013 getTimeline sees it:
fetch can fail, parse can fail (with the partially filled profile Go's
parse returns), or a page of tweets is produced. -/
inductive FetchPage where
  | fetchErr (e : String)
  | parseErr (e : String) (prof : pprofile)
  | page (prof : pprofile) (tweets : List ptweet)
deriving DecidableEq, Repr

/-- One fetch-and-parse step as the main.go getTimeline sees it: the
parse of that generation also returns the next-page URL. -/
inductive FetchPageN where
  | fetchErr (e : String)
  | parseErr (e : String) (prof : pprofile)
  | page (prof : pprofile) (tweets : List ptweet) (nextURL : String)
deriving DecidableEq, Repr

/-- What getTimeline returns, plus `urls`: the list of URLs it fetched,
in order (Go just issues the fetches; the log lets claims about which
pages are requested be stated). -/
structure TLResult where
  prof : pprofile
  tweets : List ptweet
  latestID : Int
  err : Option String
  urls : List String
deriving DecidableEq, Repr

/-- The errUnchanged sentinel ("no new tweets"). -/
def errUnchangedMsg : String := "no new tweets"

/-- part_013 getTimeline's oldest-own-tweet fold: the smallest id among
the page's tweets whose author is the profile owner, starting from
math.MaxInt64 (retweets keep the original author's id and are
skipped). -/
def oldestOwnID (profUser : String) (ts : List ptweet) : Int :=
  ts.foldl (fun acc t => if t.user == profUser && decide (t.id < acc) then t.id else acc) maxI64

/-- getTimeline's dedup fold (both generations): a tweet whose id was
already seen is dropped, otherwise it is appended and its id recorded.
Go uses a map[int64]struct{}; a list of ids with the same membership
test models it. -/
def dedupAppend (seen : List Int) (acc : List ptweet) : List ptweet → List Int × List ptweet
  | [] => (seen, acc)
  | t :: rest =>
    if seen.contains t.id then dedupAppend seen acc rest
    else dedupAppend (t.id :: seen) (acc ++ [t]) rest

/-- The page loop of part_013's getTimeline.  `remaining` counts the
pages still allowed; `first` is true on the first page (np == 0). -/
def tlLoop13 (f : String → FetchPage) (baseURL : String) (oldLatestID : Int) :
    Nat → Bool → String → pprofile → List Int → List ptweet → Int → TLResult
  | 0, _, _, prof, _, acc, latest =>
    { prof := prof, tweets := acc, latestID := latest, err := none, urls := [] }
  | remaining + 1, first, url, prof, seen, acc, latest =>
    match f url with
    | .fetchErr e =>
      { prof := prof, tweets := acc, latestID := 0, err := some e, urls := [url] }
    | .parseErr e prof2 =>
      { prof := prof2, tweets := acc, latestID := latest, err := some e, urls := [url] }
    | .page prof2 newTweets =>
      if newTweets.isEmpty then
        -- went past the beginning of the feed
        { prof := prof2, tweets := acc, latestID := latest, err := none, urls := [url] }
      else
        let latest2 := if first then (newTweets.head?.getD ⟨0, ""⟩).id else latest
        if first && latest2 == oldLatestID then
          { prof := prof2, tweets := acc, latestID := latest2,
            err := some errUnchangedMsg, urls := [url] }
        else
          let oldest := oldestOwnID prof2.user newTweets
          let sa := dedupAppend seen acc newTweets
          if oldest == maxI64 then
            -- no own tweets on the page: no way to know where to start next
            { prof := prof2, tweets := sa.2, latestID := latest2, err := none, urls := [url] }
          else
            let url2 := baseURL ++ "?max_id=" ++ toString oldest
            if url2 == url then
              { prof := prof2, tweets := sa.2, latestID := latest2, err := none, urls := [url] }
            else
              let r := tlLoop13 f baseURL oldLatestID remaining false url2 prof2 sa.1 sa.2 latest2
              { r with urls := url :: r.urls }

/-- src/unnamed/part_013 `getTimeline`: download up to `pages` pages,
starting at the mobile timeline URL and paginating by a max_id query
parameter derived from the oldest own-authored tweet id on each page;
tweets with already-seen ids are dropped. -/
def getTimeline13 (f : String → FetchPage) (user : String) (oldLatestID : Int)
    (pages : Nat) : TLResult :=
  tlLoop13 f ("https://mobile.twitter.com/" ++ user) oldLatestID pages true
    ("https://mobile.twitter.com/" ++ user) ⟨""⟩ [] [] 0

/-- The page loop of src/main.go's getTimeline: pagination follows the
nextURL the parser extracts ("" stops). -/
def tlLoopM (f : String → FetchPageN) (oldLatestID : Int) :
    Nat → Bool → String → pprofile → List Int → List ptweet → Int → TLResult
  | 0, _, _, prof, _, acc, latest =>
    { prof := prof, tweets := acc, latestID := latest, err := none, urls := [] }
  | remaining + 1, first, url, prof, seen, acc, latest =>
    match f url with
    | .fetchErr e =>
      { prof := prof, tweets := acc, latestID := 0, err := some e, urls := [url] }
    | .parseErr e prof2 =>
      { prof := prof2, tweets := acc, latestID := latest, err := some e, urls := [url] }
    | .page prof2 newTweets nextURL =>
      if newTweets.isEmpty then
        { prof := prof2, tweets := acc, latestID := latest, err := none, urls := [url] }
      else
        let latest2 := if first then (newTweets.head?.getD ⟨0, ""⟩).id else latest
        if first && latest2 == oldLatestID then
          { prof := prof2, tweets := acc, latestID := latest2,
            err := some errUnchangedMsg, urls := [url] }
        else
          let sa := dedupAppend seen acc newTweets
          if nextURL == "" then
            { prof := prof2, tweets := sa.2, latestID := latest2, err := none, urls := [url] }
          else
            let r := tlLoopM f oldLatestID remaining false nextURL prof2 sa.1 sa.2 latest2
            { r with urls := url :: r.urls }

/-- src/main.go `getTimeline`: like the part_013 generation but
paginating by the parser-provided next URL. -/
def getTimelineM (f : String → FetchPageN) (user : String) (oldLatestID : Int)
    (pages : Nat) : TLResult :=
  tlLoopM f oldLatestID pages true (mobileURL (userURL user)) ⟨""⟩ [] [] 0

/-! ## Claim C8 -/

/-- C8: a post whose only reply-target handle equals its own author
handle is not treated as a reply (the reply predicate is false); a post
with at least one reply-target different from its author is treated as
a reply. -/
theorem c8_self_reply_suppression (t : tweet) :
    (t.ReplyUsers = [t.User] → t.reply = false) ∧
    (∀ u, u ∈ t.ReplyUsers → u ≠ t.User → t.reply = true) := by
  constructor
  · intro h
    simp [tweet.reply, h]
  · intro u hu hne
    match h : t.ReplyUsers with
    | [] => rw [h] at hu; simp at hu
    | [x] =>
      rw [h] at hu; simp at hu
      subst hu
      simp [tweet.reply, h, hne]
    | x :: y :: rest => simp [tweet.reply, h]

/-- Witness for C8 at concrete tweets: a pure self-reply is not a
reply; a reply to someone else is. -/
theorem c8_self_reply_suppression_witness :
    tweet.reply { User := "a", ReplyUsers := ["a"] } = false ∧
    tweet.reply { User := "a", ReplyUsers := ["b"] } = true :=
  ⟨(c8_self_reply_suppression { User := "a", ReplyUsers := ["a"] }).1 rfl,
   (c8_self_reply_suppression { User := "a", ReplyUsers := ["b"] }).2 "b" (by decide) (by decide)⟩

/-! ## Claim C6 -/

/-- C6 counterexample: the rewrite pipeline is not idempotent.  On a
`<div>` holding the text "a\nb", the first run yields the children
text "a", br, text "\n", text "b"; the second run splits the
inserted "\n" text node again and the tree changes. -/
theorem c6_pipeline_not_idempotent :
    rewritePipeline ⟨true⟩ (rewritePipeline ⟨true⟩ (.elem "div" [] (.cons (.text "a\nb") .nil))) ≠
      rewritePipeline ⟨true⟩ (.elem "div" [] (.cons (.text "a\nb") .nil)) := by decide

mutual
/-- No attribute with the given key appears anywhere in the tree. -/
def attrAbsent (n : HNode) (a : String) : Bool :=
  match n with
  | .text _ => true
  | .elem _ at_ cs => !(hasAttrKey at_ a) && attrAbsentF cs a
/-- `attrAbsent` over a forest. -/
def attrAbsentF (cs : HForest) (a : String) : Bool :=
  match cs with
  | .nil => true
  | .cons c rest => attrAbsent c a && attrAbsentF rest a
end

theorem hasAttrKey_filter (l : List (String × String)) (a : String) :
    hasAttrKey (l.filter (fun kv => kv.1 ≠ a)) a = false := by
  induction l with
  | nil => rfl
  | cons kv rest ih =>
    simp only [List.filter_cons, decide_not] at ih ⊢
    by_cases h : kv.1 = a
    · simp [h, ih]
    · simp [h, hasAttrKey, ih]

theorem filter_ne_idem (l : List (String × String)) (a : String) :
    (l.filter (fun kv => kv.1 ≠ a)).filter (fun kv => kv.1 ≠ a) =
      l.filter (fun kv => kv.1 ≠ a) := by
  induction l with
  | nil => rfl
  | cons kv rest ih =>
    simp only [List.filter_cons, decide_not] at ih ⊢
    by_cases h : kv.1 = a
    · simp [h, ih]
    · simp [h, ih]

mutual
theorem deleteAttr_idem (n : HNode) (a : String) :
    deleteAttr (deleteAttr n a) a = deleteAttr n a := by
  cases n with
  | text s => rfl
  | elem t at_ cs => simp [deleteAttr, filter_ne_idem, deleteAttrF_idem cs a]
theorem deleteAttrF_idem (cs : HForest) (a : String) :
    deleteAttrF (deleteAttrF cs a) a = deleteAttrF cs a := by
  cases cs with
  | nil => rfl
  | cons c rest => simp [deleteAttrF, deleteAttr_idem c a, deleteAttrF_idem rest a]
end

mutual
theorem attrAbsent_deleteAttr (n : HNode) (a : String) :
    attrAbsent (deleteAttr n a) a = true := by
  cases n with
  | text s => rfl
  | elem t at_ cs =>
    have h1 := hasAttrKey_filter at_ a
    simp only [decide_not] at h1
    simp [deleteAttr, attrAbsent, h1, attrAbsentF_deleteAttr cs a]
theorem attrAbsentF_deleteAttr (cs : HForest) (a : String) :
    attrAbsentF (deleteAttrF cs a) a = true := by
  cases cs with
  | nil => rfl
  | cons c rest =>
    simp [deleteAttrF, attrAbsentF, attrAbsent_deleteAttr c a, attrAbsentF_deleteAttr rest a]
end

/-- C6 amended: re-running the pipeline is NOT a no-op in general (see
the counterexample: addLineBreaks re-splits the "\n" text nodes it
itself inserted, adding one more `<br>` per line break on every run);
what does hold is the attribute-stripping half of the claim: a
`deleteAttr` pass removes every occurrence of the attribute from the
tree and a second application is a no-op, so an already-stripped tree
has no further class or style attributes to strip. -/
theorem c6_strip_idempotent (t : HNode) (a : String) :
    deleteAttr (deleteAttr t a) a = deleteAttr t a ∧
    attrAbsent (deleteAttr t a) a = true :=
  ⟨deleteAttr_idem t a, attrAbsent_deleteAttr t a⟩

/-! ## Claim C5 -/

/-- C5 counterexample: on the month-day form the parser ignores `now`
entirely: parsing "Jul 9" with now = 2020-03-01T03:00:00Z yields
July 9 of year 0 at 00:00:00 UTC — neither July 9 of the current year
nor of the previous year, and not at 12:00. -/
theorem c5_monthday_counterexample :
    parseTime "Jul 9" (dateToNs 2020 3 1 3 0 0) = .ok (dateToNs 0 7 9 0 0 0) ∧
    dateToNs 0 7 9 0 0 0 ≠ dateToNs 2020 7 9 12 0 0 ∧
    dateToNs 0 7 9 0 0 0 ≠ dateToNs 2019 7 9 12 0 0 := by decide

theorem digit_not_unit (c : Char) (h : c.isDigit = true) :
    (c == 's' || c == 'm' || c == 'h' || c == 'd') = false := by
  by_cases h1 : c = 's'
  · subst h1; simp at h
  · by_cases h2 : c = 'm'
    · subst h2; simp at h
    · by_cases h3 : c = 'h'
      · subst h3; simp at h
      · by_cases h4 : c = 'd'
        · subst h4; simp at h
        · simp [h1, h2, h3, h4]

/-- C5 amended: for every month-day-only timestamp string and every
now, parseTime ignores `now` entirely and returns that month and day in
year 0 at 00:00:00 UTC (the defaults time.Parse("Jan 2", ·) leaves in
the unspecified fields). -/
theorem c5_monthday_year_zero (s : String) (now : Int) (a b c : Char) (ds : List Char)
    (m d : Nat)
    (hs : s.toList = a :: b :: c :: ' ' :: ds)
    (hm : monthOfAbbr a b c = some m)
    (hd : jan2Day ds = some d)
    (hlo : 1 ≤ d) (hhi : d ≤ daysInMonth m 0) :
    parseTime s now = .ok (dateToNs 0 m d 0 0 0) := by
  have hs2 : s.data = a :: b :: c :: ' ' :: ds := hs
  have hdm : durMatch s = none := by
    match hds : ds with
    | [d1] =>
      have hdig : d1.isDigit = true := by
        by_cases hh : d1.isDigit = true
        · exact hh
        · simp [jan2Day, hh] at hd
      simp [durMatch, hs, hs2, List.getLast?, List.getLastD, digit_not_unit d1 hdig]
    | [d1, d2] =>
      have hdig : d2.isDigit = true := by
        by_cases hh : d2.isDigit = true
        · exact hh
        · simp [jan2Day, hh] at hd
      simp [durMatch, hs, hs2, List.getLast?, List.getLastD, digit_not_unit d2 hdig]
    | [] => simp [jan2Day] at hd
    | d1 :: d2 :: d3 :: rest => simp [jan2Day] at hd
  have hpj : parseJan2 s = some (m, d) := by
    simp only [parseJan2, hs, hm, hd]
    simp [hlo, hhi]
  simp only [parseTime, hdm, hpj]

/-- Witness for the amended C5 at "Jul 9" (with two different values of
now, showing now is ignored). -/
theorem c5_monthday_year_zero_witness :
    parseTime "Jul 9" (dateToNs 2020 3 1 3 0 0) = .ok (dateToNs 0 7 9 0 0 0) ∧
    parseTime "Jul 9" 0 = .ok (dateToNs 0 7 9 0 0 0) :=
  ⟨c5_monthday_year_zero "Jul 9" (dateToNs 2020 3 1 3 0 0) 'J' 'u' 'l' ['9'] 7 9
     rfl (by decide) (by decide) (by decide) (by decide),
   c5_monthday_year_zero "Jul 9" 0 'J' 'u' 'l' ['9'] 7 9
     rfl (by decide) (by decide) (by decide) (by decide)⟩

/-! ## Claim C4 -/

theorem parseInt64_digits (l : List Char) (hne : l ≠ []) (hdig : ∀ c ∈ l, c.isDigit)
    (hb : natOfDigits l ≤ 2 ^ 63 - 1) :
    parseInt64 (String.mk l) = .ok (natOfDigits l) := by
  match l, hne with
  | d :: rest, _ =>
    have hd : d.isDigit = true := hdig d (by simp)
    have hplus : d ≠ '+' := by intro h; rw [h] at hd; simp at hd
    have hminus : d ≠ '-' := by intro h; rw [h] at hd; simp at hd
    have htl : (String.mk (d :: rest)).toList = d :: rest := rfl
    unfold parseInt64
    rw [htl]
    split
    · next heq => exact absurd (List.head_eq_of_cons_eq heq.symm).symm hplus
    · next heq => exact absurd (List.head_eq_of_cons_eq heq.symm).symm hminus
    · next =>
      unfold parseIntDigits
      have hall : (d :: rest).all Char.isDigit = true := by
        rw [List.all_eq_true]; intro c hc; exact hdig c hc
      have hb2 : natOfDigits (d :: rest) ≤ 9223372036854775807 := by
        have : (2 : Nat) ^ 63 - 1 = 9223372036854775807 := by norm_num
        rw [this] at hb; exact hb
      simp [hall, hb2]

theorem wrap64_eq_self (x : Int) (h1 : -(2 ^ 63) ≤ x) (h2 : x < 2 ^ 63) :
    wrap64 x = x := by
  have e : wrap64 x =
      (x + 9223372036854775808) % 18446744073709551616 - 9223372036854775808 := by
    norm_num [wrap64]
  have e63 : (2 : Int) ^ 63 = 9223372036854775808 := by norm_num
  rw [e63] at h1 h2
  rw [e]
  omega

/-- C4: for every digit string N and unit in {s, m, h, d}, parsing
"<N><unit>" yields exactly now - N*unit, where the day unit is exactly
24 hours of nanoseconds (the arithmetic is on absolute instants, with
no calendar or zone adjustment).  The range hypothesis keeps N*unit
inside int64, where Go's duration arithmetic does not wrap. -/
theorem c4_relative_duration (ds : List Char) (u : Char) (now : Int)
    (hne : ds ≠ []) (hdig : ∀ c ∈ ds, c.isDigit)
    (hu : u = 's' ∨ u = 'm' ∨ u = 'h' ∨ u = 'd')
    (hrange : (natOfDigits ds : Int) * unitNsOf u < 2 ^ 63) :
    parseTime (String.mk (ds ++ [u])) now =
      .ok (now - (natOfDigits ds : Int) * unitNsOf u) ∧
    unitNsOf 'd' = 24 * 60 * 60 * 1000000000 := by
  refine ⟨?_, by decide⟩
  have hunit : 1 ≤ unitNsOf u := by
    rcases hu with h | h | h | h <;> subst h <;> decide
  have hq0 : (0 : Int) ≤ (natOfDigits ds : Int) := Int.natCast_nonneg _
  have hqb : (natOfDigits ds : Int) ≤ 2 ^ 63 - 1 := by nlinarith
  have hdm : durMatch (String.mk (ds ++ [u])) = some (ds, u) := by
    have htl : (String.mk (ds ++ [u])).toList = ds ++ [u] := rfl
    have hlast : (ds ++ [u]).getLast? = some u := List.getLast?_concat _
    have hdrop : (ds ++ [u]).dropLast = ds := List.dropLast_concat
    have huu : (u == 's' || u == 'm' || u == 'h' || u == 'd') = true := by
      rcases hu with h | h | h | h <;> subst h <;> decide
    have hall : ds.all Char.isDigit = true := by
      rw [List.all_eq_true]; exact hdig
    simp [durMatch, htl, hlast, hdrop, huu, hall, hne]
  have hqbn : natOfDigits ds ≤ 2 ^ 63 - 1 := by
    have h1 : (natOfDigits ds : Int) ≤ 9223372036854775807 := by
      have e : ((2 : Int) ^ 63 - 1) = 9223372036854775807 := by norm_num
      rw [e] at hqb; exact hqb
    have h2 : natOfDigits ds ≤ 9223372036854775807 := by exact_mod_cast h1
    have e2 : (2 : Nat) ^ 63 - 1 = 9223372036854775807 := by norm_num
    rw [e2]; exact h2
  have hga : goAtoi (String.mk ds) = .ok (natOfDigits ds) :=
    parseInt64_digits ds hne hdig hqbn
  have p63 : (0 : Int) < 2 ^ 63 := by positivity
  have hw1 : wrap64 ((-1) * (natOfDigits ds : Int)) = -(natOfDigits ds : Int) := by
    rw [neg_one_mul]
    apply wrap64_eq_self
    · nlinarith
    · nlinarith
  have hw2 : wrap64 (-(natOfDigits ds : Int) * unitNsOf u) =
      -((natOfDigits ds : Int) * unitNsOf u) := by
    rw [neg_mul]
    apply wrap64_eq_self
    · nlinarith
    · nlinarith
  simp only [parseTime, hdm, hga]
  rw [hw1, hw2]
  congr 1

/-- Witness for C4: the spec scenario "23m" at
now = 2020-03-01T03:00:00Z yields 2020-03-01T02:37:00Z. -/
theorem c4_relative_duration_witness :
    parseTime "23m" (dateToNs 2020 3 1 3 0 0) = .ok (dateToNs 2020 3 1 2 37 0) := by
  have h := (c4_relative_duration ['2', '3'] 'm' (dateToNs 2020 3 1 3 0 0)
    (by decide) (by decide) (Or.inr (Or.inl rfl)) (by decide)).1
  have hs : String.mk (['2', '3'] ++ ['m']) = "23m" := rfl
  rw [hs] at h
  rw [h]
  decide

/-! ## Claim C1 -/

/-- q is strictly below p in the tree of paths (p is a proper ancestor
position of q). -/
def pathBelow (p q : List Nat) : Prop := ∃ r, r ≠ [] ∧ q = p ++ r

/-- Neither path lies strictly below the other. -/
def pathsUnrelated (p q : List Nat) : Prop := ¬ pathBelow p q ∧ ¬ pathBelow q p

/-- Look a path up in a forest (the head indexes the forest; the empty
path addresses no node). -/
def forestAt? (cs : HForest) : List Nat → Option HNode
  | [] => none
  | i :: p =>
    match (forestToList cs).get? i with
    | none => none
    | some c => nodeAt? c p

theorem pathBelow_cons (i j : Nat) (p q : List Nat) :
    pathBelow (i :: p) (j :: q) ↔ i = j ∧ pathBelow p q := by
  constructor
  · rintro ⟨r, hr, heq⟩
    rw [List.cons_append] at heq
    injection heq with h1 h2
    exact ⟨h1.symm, r, hr, h2⟩
  · rintro ⟨rfl, r, hr, rfl⟩
    exact ⟨r, hr, by rw [List.cons_append]⟩

theorem pathBelow_head (i j : Nat) (p q : List Nat) (h : pathBelow (i :: p) (j :: q)) :
    i = j := ((pathBelow_cons i j p q).1 h).1

theorem pathsUnrelated_cons (i j : Nat) (p q : List Nat) (h : i ≠ j) :
    pathsUnrelated (i :: p) (j :: q) :=
  ⟨fun hb => h (pathBelow_head i j p q hb), fun hb => h (pathBelow_head j i q p hb).symm⟩

theorem pathsUnrelated_cons_same (i : Nat) (p q : List Nat) (h : pathsUnrelated p q) :
    pathsUnrelated (i :: p) (i :: q) :=
  ⟨fun hb => h.1 ((pathBelow_cons i i p q).1 hb).2,
   fun hb => h.2 ((pathBelow_cons i i q p).1 hb).2⟩

theorem pathsUnrelated_cons_same_rev (i : Nat) (p q : List Nat)
    (h : pathsUnrelated (i :: p) (i :: q)) : pathsUnrelated p q :=
  ⟨fun hb => h.1 ((pathBelow_cons i i p q).2 ⟨rfl, hb⟩),
   fun hb => h.2 ((pathBelow_cons i i q p).2 ⟨rfl, hb⟩)⟩

theorem findPathsF_ne_nil (f : HNode → Bool) :
    ∀ (cs : HForest), ∀ p ∈ findPathsF f cs, p ≠ []
  | .nil => by simp [findPathsF]
  | .cons c rest => by
    intro p hp
    simp only [findPathsF, List.mem_append, List.mem_map] at hp
    rcases hp with ⟨q, _, rfl⟩ | ⟨q, hq, rfl⟩
    · simp
    · have hne := findPathsF_ne_nil f rest q hq
      match q, hne with
      | i :: q2, _ => simp [bumpHead]

mutual
theorem findPaths_agree (f : HNode → Bool) (n : HNode) :
    (findPaths f n).map (fun p => nodeAt? n p) = (findNodes f n).map some := by
  cases n with
  | text s =>
    cases hf : f (HNode.text s) with
    | true => simp [findPaths, findNodes, hf, nodeAt?]
    | false => simp [findPaths, findNodes, hf]
  | elem t a cs =>
    cases hf : f (HNode.elem t a cs) with
    | true => simp [findPaths, findNodes, hf, nodeAt?]
    | false =>
      simp only [findPaths, findNodes, hf, Bool.false_eq_true, if_false]
      have hcongr : (findPathsF f cs).map (fun p => nodeAt? (HNode.elem t a cs) p) =
          (findPathsF f cs).map (fun p => forestAt? cs p) := by
        apply List.map_congr_left
        intro p hp
        have hne := findPathsF_ne_nil f cs p hp
        match p, hne with
        | i :: p2, _ => simp [nodeAt?, forestAt?, childrenL, childrenD]
      rw [hcongr, findPathsF_agree f cs]
theorem findPathsF_agree (f : HNode → Bool) (cs : HForest) :
    (findPathsF f cs).map (fun p => forestAt? cs p) = (findNodesF f cs).map some := by
  cases cs with
  | nil => simp [findPathsF, findNodesF]
  | cons c rest =>
    simp only [findPathsF, findNodesF, List.map_append]
    have h1 : ((findPaths f c).map (fun p => 0 :: p)).map (fun p => forestAt? (.cons c rest) p) =
        (findNodes f c).map some := by
      rw [List.map_map]
      have he : ((fun p => forestAt? (.cons c rest) p) ∘ fun p => (0 : Nat) :: p) =
          fun p => nodeAt? c p := by
        funext p
        simp [Function.comp, forestAt?, forestToList]
      rw [he]
      exact findPaths_agree f c
    have h2 : ((findPathsF f rest).map bumpHead).map (fun p => forestAt? (.cons c rest) p) =
        (findNodesF f rest).map some := by
      rw [List.map_map]
      have hcongr : (findPathsF f rest).map ((fun p => forestAt? (.cons c rest) p) ∘ bumpHead) =
          (findPathsF f rest).map (fun p => forestAt? rest p) := by
        apply List.map_congr_left
        intro q hq
        have hne := findPathsF_ne_nil f rest q hq
        match q, hne with
        | i :: q2, _ =>
          simp [Function.comp, bumpHead, forestAt?, forestToList]
      rw [hcongr]
      exact findPathsF_agree f rest
    rw [h1, h2]
end

mutual
theorem findPaths_pairwise (f : HNode → Bool) (n : HNode) :
    List.Pairwise pathsUnrelated (findPaths f n) := by
  cases n with
  | text s =>
    cases hf : f (HNode.text s) with
    | true => simp [findPaths, hf]
    | false => simp [findPaths, hf]
  | elem t a cs =>
    cases hf : f (HNode.elem t a cs) with
    | true => simp [findPaths, hf]
    | false =>
      simp only [findPaths, hf, Bool.false_eq_true, if_false]
      exact findPathsF_pairwise f cs
theorem findPathsF_pairwise (f : HNode → Bool) (cs : HForest) :
    List.Pairwise pathsUnrelated (findPathsF f cs) := by
  cases cs with
  | nil => simp [findPathsF]
  | cons c rest =>
    simp only [findPathsF]
    rw [List.pairwise_append]
    refine ⟨?_, ?_, ?_⟩
    · rw [List.pairwise_map]
      exact (findPaths_pairwise f c).imp (fun h => pathsUnrelated_cons_same 0 _ _ h)
    · rw [List.pairwise_map]
      apply List.Pairwise.imp_of_mem ?_ (findPathsF_pairwise f rest)
      intro p q hp hq h
      have hnp := findPathsF_ne_nil f rest p hp
      have hnq := findPathsF_ne_nil f rest q hq
      obtain ⟨i, p2, rfl⟩ := List.exists_cons_of_ne_nil hnp
      obtain ⟨j, q2, rfl⟩ := List.exists_cons_of_ne_nil hnq
      simp only [bumpHead]
      by_cases hij : i = j
      · subst hij
        exact pathsUnrelated_cons_same (i + 1) p2 q2 (pathsUnrelated_cons_same_rev i p2 q2 h)
      · exact pathsUnrelated_cons (i + 1) (j + 1) p2 q2 (by omega)
    · intro x hx y hy
      simp only [List.mem_map] at hx hy
      rcases hx with ⟨p, _, rfl⟩
      rcases hy with ⟨q, hq, rfl⟩
      have hnq := findPathsF_ne_nil f rest q hq
      obtain ⟨j, q2, rfl⟩ := List.exists_cons_of_ne_nil hnq
      simp only [bumpHead]
      exact pathsUnrelated_cons 0 (j + 1) p q2 (by omega)
end

/-- C1: findNodes prunes matched subtrees.  findPaths is the
path-level mirror of findNodes (the first conjunct proves the
mirroring: looking the paths up yields exactly the returned nodes, in
order), and the returned paths are pairwise unrelated, so no returned
node is a descendant of another returned node, even if the descendant
also satisfies the predicate. -/
theorem c1_findNodes_pruned (f : HNode → Bool) (n : HNode) :
    (findPaths f n).map (fun p => nodeAt? n p) = (findNodes f n).map some ∧
    List.Pairwise pathsUnrelated (findPaths f n) :=
  ⟨findPaths_agree f n, findPaths_pairwise f n⟩

/-- A concrete tree for the C1 witness: an "a" element that itself
contains another "a" element. -/
def c1tree : HNode :=
  .elem "div" [] (.cons (.elem "a" [] (.cons (.elem "a" [] .nil) .nil)) .nil)

/-- The C1 witness predicate: match "a" elements. -/
def c1pred : HNode → Bool := fun m => isElement m "a"

/-- Witness for C1 at a concrete tree and predicate. -/
theorem c1_findNodes_pruned_witness :
    (findPaths c1pred c1tree).map (fun p => nodeAt? c1tree p) =
      (findNodes c1pred c1tree).map some ∧
    List.Pairwise pathsUnrelated (findPaths c1pred c1tree) :=
  c1_findNodes_pruned c1pred c1tree

/-! ## Claim C10 -/

theorem dedupAppend_inv (ts : List ptweet) :
    ∀ (seen : List Int) (acc : List ptweet),
      (∀ x, x ∈ seen ↔ x ∈ acc.map ptweet.id) → (acc.map ptweet.id).Nodup →
      (∀ x, x ∈ (dedupAppend seen acc ts).1 ↔ x ∈ (dedupAppend seen acc ts).2.map ptweet.id) ∧
        ((dedupAppend seen acc ts).2.map ptweet.id).Nodup := by
  induction ts with
  | nil => intro seen acc h1 h2; exact ⟨h1, h2⟩
  | cons t rest ih =>
    intro seen acc h1 h2
    cases hc : seen.contains t.id with
    | true =>
      simp only [dedupAppend, hc, if_true]
      exact ih seen acc h1 h2
    | false =>
      simp only [dedupAppend, hc, Bool.false_eq_true, if_false]
      have hnotin : t.id ∉ seen := by
        simp at hc
        exact hc
      have h1b : ∀ x, x ∈ t.id :: seen ↔ x ∈ (acc ++ [t]).map ptweet.id := by
        intro x
        simp only [List.mem_cons, List.map_append, List.mem_append, List.map_cons,
          List.map_nil, List.mem_singleton, h1 x]
        tauto
      have h2b : ((acc ++ [t]).map ptweet.id).Nodup := by
        rw [List.map_append]
        rw [List.nodup_append]
        refine ⟨h2, by simp, ?_⟩
        intro y hy
        simp only [List.map_cons, List.map_nil, List.mem_singleton]
        intro hxx
        subst hxx
        exact hnotin ((h1 t.id).2 hy)
      exact ih _ _ h1b h2b

theorem tlLoop13_nodup (f : String → FetchPage) (base : String) (old : Int) :
    ∀ (rem : Nat) (first : Bool) (url : String) (prof : pprofile) (seen : List Int)
      (acc : List ptweet) (latest : Int),
      (∀ x, x ∈ seen ↔ x ∈ acc.map ptweet.id) → (acc.map ptweet.id).Nodup →
      ((tlLoop13 f base old rem first url prof seen acc latest).tweets.map ptweet.id).Nodup := by
  intro rem
  induction rem with
  | zero => intro first url prof seen acc latest _ h2; simpa [tlLoop13] using h2
  | succ k ih =>
    intro first url prof seen acc latest h1 h2
    cases hf : f url with
    | fetchErr e => simpa [tlLoop13, hf] using h2
    | parseErr e p2 => simpa [tlLoop13, hf] using h2
    | page p2 ts =>
      have hinv := dedupAppend_inv ts seen acc h1 h2
      simp only [tlLoop13, hf]
      cases first <;>
        (repeat' split) <;>
        first
          | simpa using h2
          | simpa using hinv.2
          | simpa using ih false _ p2 _ _ _ hinv.1 hinv.2

theorem tlLoopM_nodup (f : String → FetchPageN) (old : Int) :
    ∀ (rem : Nat) (first : Bool) (url : String) (prof : pprofile) (seen : List Int)
      (acc : List ptweet) (latest : Int),
      (∀ x, x ∈ seen ↔ x ∈ acc.map ptweet.id) → (acc.map ptweet.id).Nodup →
      ((tlLoopM f old rem first url prof seen acc latest).tweets.map ptweet.id).Nodup := by
  intro rem
  induction rem with
  | zero => intro first url prof seen acc latest _ h2; simpa [tlLoopM] using h2
  | succ k ih =>
    intro first url prof seen acc latest h1 h2
    cases hf : f url with
    | fetchErr e => simpa [tlLoopM, hf] using h2
    | parseErr e p2 => simpa [tlLoopM, hf] using h2
    | page p2 ts nu =>
      have hinv := dedupAppend_inv ts seen acc h1 h2
      simp only [tlLoopM, hf]
      cases first <;>
        (repeat' split) <;>
        first
          | simpa using h2
          | simpa using hinv.2
          | simpa using ih false _ p2 _ _ _ hinv.1 hinv.2

/-- C10: the tweet list returned by getTimeline holds at most one tweet
per id — for any fetch oracle, user, previous latest id and page count,
the ids of the returned tweets are pairwise distinct, in both the
part_013 (max_id pagination) and main.go (nextURL pagination)
generations. -/
theorem c10_no_duplicate_ids (f : String → FetchPage) (g : String → FetchPageN)
    (user : String) (old : Int) (pages : Nat) :
    ((getTimeline13 f user old pages).tweets.map ptweet.id).Nodup ∧
      ((getTimelineM g user old pages).tweets.map ptweet.id).Nodup := by
  constructor
  · exact tlLoop13_nodup f _ old pages true _ _ [] [] 0 (by simp) (by simp)
  · exact tlLoopM_nodup g old pages true _ _ [] [] 0 (by simp) (by simp)

/-! ## Claim C9 -/

theorem oldestOwn_fold (pu : String) : ∀ (ts : List ptweet) (a : Int),
    ts.foldl (fun acc t => if t.user == pu && decide (t.id < acc) then t.id else acc) a ≤ a ∧
    (∀ t ∈ ts, t.user = pu →
      ts.foldl (fun acc t => if t.user == pu && decide (t.id < acc) then t.id else acc) a ≤ t.id) ∧
    (ts.foldl (fun acc t => if t.user == pu && decide (t.id < acc) then t.id else acc) a = a ∨
      ∃ t ∈ ts, t.user = pu ∧
        ts.foldl (fun acc t => if t.user == pu && decide (t.id < acc) then t.id else acc) a
          = t.id) := by
  intro ts
  induction ts with
  | nil =>
    intro a
    refine ⟨le_refl a, ?_, Or.inl rfl⟩
    intro t ht
    cases ht
  | cons t rest ih =>
    intro a
    simp only [List.foldl_cons]
    obtain ⟨ih1, ih2, ih3⟩ := ih (if t.user == pu && decide (t.id < a) then t.id else a)
    have h2a : (if t.user == pu && decide (t.id < a) then t.id else a) ≤ a := by
      split
      · next hcond =>
        rw [Bool.and_eq_true] at hcond
        exact le_of_lt (of_decide_eq_true hcond.2)
      · exact le_refl a
    have h2t : t.user = pu → (if t.user == pu && decide (t.id < a) then t.id else a) ≤ t.id := by
      intro hu
      split
      · exact le_refl _
      · next hcond =>
        simp only [hu, beq_self_eq_true, Bool.true_and, decide_eq_true_eq] at hcond
        omega
    refine ⟨le_trans ih1 h2a, ?_, ?_⟩
    · intro s hs hsu
      rcases List.mem_cons.1 hs with h | h
      · subst h
        exact le_trans ih1 (h2t hsu)
      · exact ih2 s h hsu
    · rcases ih3 with h | ⟨s, hs, hsu, hr⟩
      · by_cases hc : (t.user == pu && decide (t.id < a)) = true
        · right
          refine ⟨t, List.mem_cons_self t rest, ?_, ?_⟩
          · rw [Bool.and_eq_true] at hc
            exact eq_of_beq hc.1
          · rw [h, if_pos hc]
        · left
          rw [h, if_neg hc]
      · right
        exact ⟨s, List.mem_cons_of_mem t hs, hsu, hr⟩

theorem tlLoop13_urls_take1 (f : String → FetchPage) (base : String) (old : Int)
    (j : Nat) (first : Bool) (url : String) (prof : pprofile) (seen : List Int)
    (acc : List ptweet) (latest : Int) :
    ((tlLoop13 f base old (j + 1) first url prof seen acc latest).urls).take 1 = [url] := by
  cases hf : f url <;> simp only [tlLoop13, hf] <;> (repeat' split) <;> simp

/-- Two-fetch unfolding of the page loop: on a nonempty first page that
does not trip the errUnchanged check, whose own-authored minimum is
below the sentinel and whose derived max_id URL differs from the
current one, the first two URLs fetched are the current URL and the
derived max_id URL. -/
theorem tlLoop13_urls_take2 (f : String → FetchPage) (base : String) (old : Int)
    (k : Nat) (url : String) (prof : pprofile) (seen : List Int) (acc : List ptweet)
    (latest : Int) (p2 : pprofile) (ts : List ptweet)
    (hf : f url = .page p2 ts) (hE : ts.isEmpty = false)
    (hlat : (((ts.head?.getD ⟨0, ""⟩).id : Int) == old) = false)
    (hmax : ((oldestOwnID p2.user ts : Int) == maxI64) = false)
    (hurl : ((base ++ "?max_id=" ++ toString (oldestOwnID p2.user ts) : String) == url)
      = false) :
    ((tlLoop13 f base old (k + 2) true url prof seen acc latest).urls).take 2 =
      [url, base ++ "?max_id=" ++ toString (oldestOwnID p2.user ts)] := by
  simp only [tlLoop13, hf, hE, Bool.false_eq_true, if_false, Bool.true_and, hlat, hmax, hurl,
    if_true, List.take_succ_cons]
  cases hg : f (base ++ "?max_id=" ++ toString (oldestOwnID p2.user ts)) <;>
    simp only [hg] <;> (repeat' split) <;> simp

/-- C9: part_013's getTimeline paginates by the minimum id among the
page's own-authored posts: the max_id value is `oldestOwnID`, which is
a lower bound on all own-authored ids on the page and is attained by
one of them whenever it is below the MaxInt64 sentinel; on a first page
with no own-authored posts the loop stops after that single fetch, and
otherwise (given at least 2 allowed pages) the second URL fetched is
the base URL with `?max_id=` set to that minimum own id. -/
theorem c9_max_id_from_own_min (f : String → FetchPage) (user : String) (old : Int)
    (pages : Nat) (prof : pprofile) (ts : List ptweet)
    (hf : f ("https://mobile.twitter.com/" ++ user) = .page prof ts)
    (hne : ts ≠ [])
    (hlat : (ts.head?.getD ⟨0, ""⟩).id ≠ old)
    (hp : 2 ≤ pages) :
    (∀ t ∈ ts, t.user = prof.user → oldestOwnID prof.user ts ≤ t.id) ∧
    (oldestOwnID prof.user ts < maxI64 →
      ∃ t ∈ ts, t.user = prof.user ∧ oldestOwnID prof.user ts = t.id) ∧
    ((∀ t ∈ ts, t.user ≠ prof.user) →
      (getTimeline13 f user old pages).urls = ["https://mobile.twitter.com/" ++ user]) ∧
    (oldestOwnID prof.user ts < maxI64 →
      (getTimeline13 f user old pages).urls.take 2 =
        ["https://mobile.twitter.com/" ++ user,
         "https://mobile.twitter.com/" ++ user ++ "?max_id=" ++
           toString (oldestOwnID prof.user ts)]) := by
  obtain ⟨hb1, hb2, hb3⟩ := oldestOwn_fold prof.user ts maxI64
  have hE : ts.isEmpty = false := by
    cases ts with
    | nil => exact absurd rfl hne
    | cons a l => rfl
  have hlatB : (((ts.head?.getD ⟨0, ""⟩).id : Int) == old) = false :=
    beq_eq_false_iff_ne.2 hlat
  obtain ⟨k, rfl⟩ : ∃ k, pages = k + 2 := ⟨pages - 2, by omega⟩
  refine ⟨fun t ht hu => hb2 t ht hu, ?_, ?_, ?_⟩
  · intro hlt
    rcases hb3 with h | h
    · exact absurd (h : oldestOwnID prof.user ts = maxI64) (ne_of_lt hlt)
    · exact h
  · intro hall
    have hmaxT : ((oldestOwnID prof.user ts : Int) == maxI64) = true := by
      rcases hb3 with h | ⟨s, hs, hsu, _⟩
      · exact beq_iff_eq.2 h
      · exact absurd hsu (hall s hs)
    simp only [getTimeline13, tlLoop13, hf, hE, Bool.false_eq_true, if_false,
      Bool.true_and, hlatB, if_true, hmaxT]
  · intro hlt
    have hmaxB : ((oldestOwnID prof.user ts : Int) == maxI64) = false :=
      beq_eq_false_iff_ne.2 (ne_of_lt hlt)
    have hurlB : (("https://mobile.twitter.com/" ++ user ++ "?max_id=" ++
        toString (oldestOwnID prof.user ts) : String)
          == ("https://mobile.twitter.com/" ++ user : String)) = false := by
      refine beq_eq_false_iff_ne.2 ?_
      intro h
      have hlen := congrArg String.length h
      simp only [String.length_append] at hlen
      have h8 : ("?max_id=" : String).length = 8 := rfl
      omega
    exact tlLoop13_urls_take2 f ("https://mobile.twitter.com/" ++ user) old k
      ("https://mobile.twitter.com/" ++ user) ⟨""⟩ [] [] 0 prof ts hf hE hlatB hmaxB hurlB

/-- A concrete first page for exercising the pagination theorem: two
own-authored tweets (ids 100 and 70) around a retweet that kept the
original author's id 50. -/
def c9ts : List ptweet := [⟨100, "alice"⟩, ⟨50, "bob"⟩, ⟨70, "alice"⟩]

/-- A concrete fetch oracle serving `c9ts` at alice's timeline URL. -/
def c9f : String → FetchPage := fun u =>
  if u = "https://mobile.twitter.com/alice" then .page ⟨"alice"⟩ c9ts
  else .fetchErr "offline"

theorem c9_max_id_from_own_min_witness :
    (c9f ("https://mobile.twitter.com/" ++ "alice") = .page ⟨"alice"⟩ c9ts ∧
      c9ts ≠ [] ∧ (c9ts.head?.getD ⟨0, ""⟩).id ≠ 0 ∧ 2 ≤ 2) ∧
    ((∀ t ∈ c9ts, t.user = "alice" → oldestOwnID "alice" c9ts ≤ t.id) ∧
     (oldestOwnID "alice" c9ts < maxI64 →
       ∃ t ∈ c9ts, t.user = "alice" ∧ oldestOwnID "alice" c9ts = t.id) ∧
     ((∀ t ∈ c9ts, t.user ≠ "alice") →
       (getTimeline13 c9f "alice" 0 2).urls = ["https://mobile.twitter.com/" ++ "alice"]) ∧
     (oldestOwnID "alice" c9ts < maxI64 →
       (getTimeline13 c9f "alice" 0 2).urls.take 2 =
         ["https://mobile.twitter.com/" ++ "alice",
          "https://mobile.twitter.com/" ++ "alice" ++ "?max_id=" ++
            toString (oldestOwnID "alice" c9ts)])) :=
  ⟨⟨by decide, by decide, by decide, by decide⟩,
   c9_max_id_from_own_min c9f "alice" 0 2 ⟨"alice"⟩ c9ts (by decide) (by decide)
     (by decide) (by decide)⟩

/-! ## Claim C2 -/

theorem parseTweetLoop_err (user : String) (opts : parseOptions) :
    ∀ (tns : List HNode) (i0 i : Nat) (hi : i < tns.length) (tw : tweet) (e : String),
      (∀ j (hj : j < i), (parseTweet (tns.get ⟨j, lt_trans hj hi⟩) user opts).2 = none) →
      parseTweet (tns.get ⟨i, hi⟩) user opts = (tw, some e) →
      parseTweetLoop user opts i0 tns =
        .error ("failed parsing tweet " ++ tweetErrId tw (i0 + i) ++ ": " ++ e) := by
  intro tns
  induction tns with
  | nil =>
    intro i0 i hi
    exact absurd hi (Nat.not_lt_zero i)
  | cons tn rest ih =>
    intro i0 i hi tw e hpre hfail
    cases i with
    | zero =>
      simp only [List.get] at hfail
      simp only [parseTweetLoop, hfail, Nat.add_zero]
    | succ i2 =>
      have h0 : (parseTweet tn user opts).2 = none := hpre 0 (Nat.succ_pos i2)
      obtain ⟨tw1, htw⟩ : ∃ tw1, parseTweet tn user opts = (tw1, none) :=
        ⟨(parseTweet tn user opts).1, by rw [← h0]⟩
      have hi2 : i2 < rest.length := Nat.lt_of_succ_lt_succ hi
      have hrec := ih (i0 + 1) i2 hi2 tw e
        (fun j hj => hpre (j + 1) (Nat.succ_lt_succ hj))
        hfail
      simp only [parseTweetLoop, htw, hrec]
      have : i0 + 1 + i2 = i0 + (i2 + 1) := by omega
      rw [this]

/-- C2: if the profile parses but the i-th post container fails to
parse (all earlier ones succeeding), parseTimeline returns the profile
together with a hard error that names that post via `tweetErrId` (its
id when positive, otherwise its index), and returns no tweet list at
all: the error constructor carries no tweets, just as Go returns a nil
slice next to a non-nil error. -/
theorem c2_parse_failure_aborts (root : HNode) (opts : parseOptions) (col : HNode)
    (prof : profile) (i : Nat) (tw : tweet) (e : String)
    (hcol : findFirstNode (matchFunc "div" ["data-testid=primaryColumn"]) root = some col)
    (hprof : parseProfile col = (prof, none))
    (hi : i < (findNodes (matchFunc "div" ["data-testid=tweet"]) col).length)
    (hpre : ∀ j (hj : j < i),
      (parseTweet ((findNodes (matchFunc "div" ["data-testid=tweet"]) col).get
        ⟨j, lt_trans hj hi⟩) prof.User opts).2 = none)
    (hfail : parseTweet ((findNodes (matchFunc "div" ["data-testid=tweet"]) col).get
      ⟨i, hi⟩) prof.User opts = (tw, some e)) :
    parseTimeline root opts =
      (prof, .error ("failed parsing tweet " ++ tweetErrId tw i ++ ": " ++ e)) ∧
    ∀ ts : List tweet, (parseTimeline root opts).2 ≠ .ok ts := by
  have hloop := parseTweetLoop_err prof.User opts
    (findNodes (matchFunc "div" ["data-testid=tweet"]) col) 0 i hi tw e hpre hfail
  have hmain : parseTimeline root opts =
      (prof, .error ("failed parsing tweet " ++ tweetErrId tw i ++ ": " ++ e)) := by
    simp only [parseTimeline, hcol, hprof, hloop, Nat.zero_add]
  refine ⟨hmain, ?_⟩
  intro ts
  rw [hmain]
  intro h
  cases h

/-- A concrete primary-column tree: a nested @alice handle, a profile
image, and one tweet container that is an empty div (so its parse fails
with "no right column"). -/
def c2col : HNode :=
  .elem "div" [("data-testid", "primaryColumn")]
    (.cons (.elem "div" [] (.cons (.elem "div" [] (.cons (.elem "span" []
        (.cons (.text "@alice") .nil)) .nil)) .nil))
    (.cons (.elem "img" [("src", "https://pbs.example/profile_images/me_x.jpg")] .nil)
    (.cons (.elem "div" [("data-testid", "tweet")] .nil) .nil)))

/-- The profile parsed out of `c2col`. -/
def c2prof : profile := (parseProfile c2col).1

theorem c2_parse_failure_aborts_witness :
    (findFirstNode (matchFunc "div" ["data-testid=primaryColumn"]) c2col = some c2col ∧
     parseProfile c2col = (c2prof, none) ∧
     0 < (findNodes (matchFunc "div" ["data-testid=tweet"]) c2col).length) ∧
    (parseTimeline c2col ⟨true⟩ =
      (c2prof,
        .error ("failed parsing tweet " ++ tweetErrId {} 0 ++ ": " ++ "no right column")) ∧
     ∀ ts : List tweet, (parseTimeline c2col ⟨true⟩).2 ≠ .ok ts) :=
  ⟨⟨by decide, by decide, by decide⟩,
   c2_parse_failure_aborts c2col ⟨true⟩ c2col c2prof 0 {} "no right column"
     (by decide) (by decide) (by decide)
     (fun j hj => absurd hj (Nat.not_lt_zero j))
     (by decide)⟩

/-! ## Claim C3 -/

theorem parseTweet_body_count (nt : String) (na : List (String × String)) (ncs : HForest)
    (user : String) (opts : parseOptions)
    (lc mn0 : HNode) (nrest : List HNode) (head : HNode) (mrest : List HNode)
    (tp : List Nat) (tm : HNode) (tns : Int) (ln : HNode) (tid : Int)
    (up : List Nat) (un : HNode) (body : HNode) (brest : List HNode)
    (h1 : forestToList ncs = lc :: mn0 :: nrest)
    (h2 : childrenL (fixEmoji mn0) = head :: mrest)
    (h3 : findFirstNodePath (matchFunc "time" ["datetime"]) head = some (tp, tm))
    (h4 : rfc3339ToNs (getAttr tm "datetime") = some tns)
    (h5 : nodeAt? (.elem nt na (forestOfList (lc :: fixEmoji mn0 :: nrest)))
      ((1 :: 0 :: tp).dropLast) = some ln)
    (h6 : isElement ln "a" = true)
    (h7 : parseInt64 (pathBase (absoluteURL (getAttr ln "href"))) = .ok tid)
    (h8 : findFirstNodePath atTextPred head = some (up, un))
    (h9 : up ≠ [])
    (h10 : mrest = body :: brest)
    (h11 : (childrenL body).length ≠ 3) (h12 : (childrenL body).length ≠ 4) :
    (parseTweet (.elem nt na ncs) user opts).1.ID = tid ∧
    (parseTweet (.elem nt na ncs) user opts).2 =
      some ("body contains " ++ toString (childrenL body).length ++
        " children; want 3 or 4") := by
  subst h10
  have h9b : up.isEmpty = false := by
    cases up with
    | nil => exact absurd rfl h9
    | cons a l => rfl
  simp only [parseTweet, h1, h2, h3, h4, h5, h6, h7, h8, h9b, Bool.not_true,
    Bool.false_eq_true, if_false]
  rcases hcl : childrenL body with _ | ⟨a, _ | ⟨b, _ | ⟨c, _ | ⟨d, _ | ⟨e, rest5⟩⟩⟩⟩⟩
  · simp [parseTweetBody, hcl]
  · simp [parseTweetBody, hcl]
  · simp [parseTweetBody, hcl]
  · rw [hcl] at h11
    simp at h11
  · rw [hcl] at h12
    simp at h12
  · simp [parseTweetBody, hcl]

/-- C3: the post body is partitioned by a strict child-count switch:
exactly 3 children select (text, embed, footer), exactly 4 select
(reply-context, text, embed, footer) with the reply handles read from
the first child, and any other count is a hard error naming the count
that makes parseTimeline return an error tagged with the post's id and
no post list at all. -/
theorem c3_body_child_count_switch (root : HNode) (opts : parseOptions) (col : HNode)
    (prof : profile) (i : Nat)
    (nt : String) (na : List (String × String)) (ncs : HForest)
    (lc mn0 : HNode) (nrest : List HNode) (head : HNode) (mrest : List HNode)
    (tp : List Nat) (tm : HNode) (tns : Int) (ln : HNode) (tid : Int)
    (up : List Nat) (un : HNode) (body : HNode) (brest : List HNode)
    (hcol : findFirstNode (matchFunc "div" ["data-testid=primaryColumn"]) root = some col)
    (hprof : parseProfile col = (prof, none))
    (hi : i < (findNodes (matchFunc "div" ["data-testid=tweet"]) col).length)
    (hpre : ∀ j (hj : j < i),
      (parseTweet ((findNodes (matchFunc "div" ["data-testid=tweet"]) col).get
        ⟨j, lt_trans hj hi⟩) prof.User opts).2 = none)
    (hni : (findNodes (matchFunc "div" ["data-testid=tweet"]) col).get ⟨i, hi⟩
      = .elem nt na ncs)
    (h1 : forestToList ncs = lc :: mn0 :: nrest)
    (h2 : childrenL (fixEmoji mn0) = head :: mrest)
    (h3 : findFirstNodePath (matchFunc "time" ["datetime"]) head = some (tp, tm))
    (h4 : rfc3339ToNs (getAttr tm "datetime") = some tns)
    (h5 : nodeAt? (.elem nt na (forestOfList (lc :: fixEmoji mn0 :: nrest)))
      ((1 :: 0 :: tp).dropLast) = some ln)
    (h6 : isElement ln "a" = true)
    (h7 : parseInt64 (pathBase (absoluteURL (getAttr ln "href"))) = .ok tid)
    (h8 : findFirstNodePath atTextPred head = some (up, un))
    (h9 : up ≠ [])
    (h10 : mrest = body :: brest)
    (h11 : (childrenL body).length ≠ 3) (h12 : (childrenL body).length ≠ 4) :
    (∀ (tw2 : tweet) (body2 t0 e0 f0 : HNode), childrenL body2 = [t0, e0, f0] →
      parseTweetBody tw2 prof.User opts body2 = parseTweetAssemble tw2 prof.User opts t0 e0) ∧
    (∀ (tw2 : tweet) (body2 r0 t0 e0 f0 : HNode), childrenL body2 = [r0, t0, e0, f0] →
      parseTweetBody tw2 prof.User opts body2 =
        parseTweetAssemble { tw2 with ReplyUsers := replyUsersOf r0 } prof.User opts t0 e0) ∧
    (parseTweet (.elem nt na ncs) prof.User opts).1.ID = tid ∧
    parseTimeline root opts =
      (prof, .error ("failed parsing tweet " ++
        tweetErrId (parseTweet (.elem nt na ncs) prof.User opts).1 i ++ ": " ++
        ("body contains " ++ toString (childrenL body).length ++
          " children; want 3 or 4"))) ∧
    ∀ ts : List tweet, (parseTimeline root opts).2 ≠ .ok ts := by
  obtain ⟨hid, hsnd⟩ := parseTweet_body_count nt na ncs prof.User opts lc mn0 nrest head
    mrest tp tm tns ln tid up un body brest h1 h2 h3 h4 h5 h6 h7 h8 h9 h10 h11 h12
  have hfail : parseTweet (.elem nt na ncs) prof.User opts =
      ((parseTweet (.elem nt na ncs) prof.User opts).1,
        some ("body contains " ++ toString (childrenL body).length ++
          " children; want 3 or 4")) :=
    Prod.ext rfl hsnd
  have hfail2 : parseTweet ((findNodes (matchFunc "div" ["data-testid=tweet"]) col).get
      ⟨i, hi⟩) prof.User opts =
      ((parseTweet (.elem nt na ncs) prof.User opts).1,
        some ("body contains " ++ toString (childrenL body).length ++
          " children; want 3 or 4")) := by
    rw [hni]
    exact hfail
  have hloop := parseTweetLoop_err prof.User opts
    (findNodes (matchFunc "div" ["data-testid=tweet"]) col) 0 i hi
    (parseTweet (.elem nt na ncs) prof.User opts).1
    ("body contains " ++ toString (childrenL body).length ++ " children; want 3 or 4")
    hpre hfail2
  have hmain : parseTimeline root opts =
      (prof, .error ("failed parsing tweet " ++
        tweetErrId (parseTweet (.elem nt na ncs) prof.User opts).1 i ++ ": " ++
        ("body contains " ++ toString (childrenL body).length ++
          " children; want 3 or 4"))) := by
    simp only [parseTimeline, hcol, hprof, hloop, Nat.zero_add]
  refine ⟨?_, ?_, hid, hmain, ?_⟩
  · intro tw2 body2 t0 e0 f0 hb
    simp only [parseTweetBody, hb]
  · intro tw2 body2 r0 t0 e0 f0 hb
    simp only [parseTweetBody, hb]
  · intro ts
    rw [hmain]
    intro h
    cases h

/-- The time element of the C3 witness tweet. -/
def c3tm : HNode := .elem "time" [("datetime", "2020-01-02T03:04:05Z")] .nil

/-- The status link wrapping the time element. -/
def c3a : HNode := .elem "a" [("href", "/alice/status/123")] (.cons c3tm .nil)

/-- The tweet header: the status link and a nested @bob handle. -/
def c3head : HNode :=
  .elem "div" []
    (.cons c3a
    (.cons (.elem "div" [] (.cons (.elem "div" [] (.cons (.elem "span" []
        (.cons (.text "@bob") .nil)) .nil)) .nil)) .nil))

/-- A tweet body with five children: neither 3 nor 4. -/
def c3body : HNode :=
  .elem "div" []
    (.cons (.elem "span" [] .nil) (.cons (.elem "span" [] .nil)
    (.cons (.elem "span" [] .nil) (.cons (.elem "span" [] .nil)
    (.cons (.elem "span" [] .nil) .nil)))))

/-- The main column of the C3 witness tweet: header then body. -/
def c3mn0 : HNode := .elem "div" [] (.cons c3head (.cons c3body .nil))

/-- The left column (empty). -/
def c3lc : HNode := .elem "div" [] .nil

/-- The children of the C3 witness tweet container. -/
def c3ncs : HForest := .cons c3lc (.cons c3mn0 .nil)

/-- A primary column holding an @alice profile handle, a profile image,
and one tweet whose body has five children. -/
def c3col : HNode :=
  .elem "div" [("data-testid", "primaryColumn")]
    (.cons (.elem "div" [] (.cons (.elem "div" [] (.cons (.elem "span" []
        (.cons (.text "@alice") .nil)) .nil)) .nil))
    (.cons (.elem "img" [("src", "https://pbs.example/profile_images/me_x.jpg")] .nil)
    (.cons (.elem "div" [("data-testid", "tweet")] c3ncs) .nil)))

/-- The profile parsed out of `c3col`. -/
def c3prof : profile := (parseProfile c3col).1

/-- The timestamp parsed out of the C3 witness tweet. -/
def c3tns : Int := (rfc3339ToNs "2020-01-02T03:04:05Z").getD 0

theorem c3_body_child_count_switch_witness :
    (findFirstNode (matchFunc "div" ["data-testid=primaryColumn"]) c3col = some c3col ∧
     parseProfile c3col = (c3prof, none) ∧
     0 < (findNodes (matchFunc "div" ["data-testid=tweet"]) c3col).length ∧
     (childrenL c3body).length ≠ 3 ∧ (childrenL c3body).length ≠ 4) ∧
    ((∀ (tw2 : tweet) (body2 t0 e0 f0 : HNode), childrenL body2 = [t0, e0, f0] →
       parseTweetBody tw2 c3prof.User ⟨true⟩ body2 =
         parseTweetAssemble tw2 c3prof.User ⟨true⟩ t0 e0) ∧
     (∀ (tw2 : tweet) (body2 r0 t0 e0 f0 : HNode), childrenL body2 = [r0, t0, e0, f0] →
       parseTweetBody tw2 c3prof.User ⟨true⟩ body2 =
         parseTweetAssemble { tw2 with ReplyUsers := replyUsersOf r0 } c3prof.User ⟨true⟩ t0 e0) ∧
     (parseTweet (.elem "div" [("data-testid", "tweet")] c3ncs) c3prof.User ⟨true⟩).1.ID = 123 ∧
     parseTimeline c3col ⟨true⟩ =
       (c3prof, .error ("failed parsing tweet " ++
         tweetErrId (parseTweet (.elem "div" [("data-testid", "tweet")] c3ncs)
           c3prof.User ⟨true⟩).1 0 ++ ": " ++
         ("body contains " ++ toString (childrenL c3body).length ++
           " children; want 3 or 4"))) ∧
     ∀ ts : List tweet, (parseTimeline c3col ⟨true⟩).2 ≠ .ok ts) :=
  ⟨⟨by decide, by decide, by decide, by decide, by decide⟩,
   c3_body_child_count_switch c3col ⟨true⟩ c3col c3prof 0
     "div" [("data-testid", "tweet")] c3ncs c3lc c3mn0 [] c3head [c3body]
     [0, 0] c3tm c3tns c3a 123 [1, 0, 0, 0] (.text "@bob") c3body []
     (by decide) (by decide) (by decide)
     (fun j hj => absurd hj (Nat.not_lt_zero j))
     (by decide) (by decide) (by decide) (by decide) (by decide) (by decide)
     (by decide) (by decide) (by decide) (by decide) (by decide) (by decide)
     (by decide)⟩

/-! ## Claim C7 -/

theorem rpiFold_prefix (nm us hr : String) :
    ∀ (ps : List String) (rest : HForest),
      ∃ rest2, ps.foldl (fun t p => rpiNode p t)
          (.elem "div" [] (.cons (bannerFor nm us hr) (.cons brNode rest))) =
        HNode.elem "div" [] (.cons (bannerFor nm us hr) (.cons brNode rest2)) := by
  intro ps
  induction ps with
  | nil => intro rest; exact ⟨rest, rfl⟩
  | cons p ps2 ih =>
    intro rest
    have hstep : rpiNode p (.elem "div" []
        (.cons (bannerFor nm us hr) (.cons brNode rest))) =
        .elem "div" [] (.cons (bannerFor nm us hr) (.cons brNode (rpiForest p rest))) := rfl
    rw [List.foldl_cons, hstep]
    exact ih (rpiForest p rest)

theorem fixVideos_prefix (nm us hr : String) (rest : HForest) :
    ∃ rest2, fixVideos (.elem "div" [] (.cons (bannerFor nm us hr) (.cons brNode rest))) =
      HNode.elem "div" [] (.cons (bannerFor nm us hr) (.cons brNode rest2)) := by
  have hac : addControls (.elem "div" []
      (.cons (bannerFor nm us hr) (.cons brNode rest))) =
      .elem "div" [] (.cons (bannerFor nm us hr) (.cons brNode (acForest rest))) := rfl
  rw [fixVideos, hac]
  exact rpiFold_prefix nm us hr _ _

theorem alb_prefix (nm us hr tg : String) (rest : HForest)
    (hnl : strContainsChar (nm ++ " (@" ++ us ++ ")") '\n' = false) :
    addLineBreaks (.elem tg [] (.cons (bannerFor nm us hr) (.cons brNode rest))) =
      .elem tg [] (.cons (bannerFor nm us hr) (.cons brNode (albForest rest))) := by
  simp only [addLineBreaks, albForest, albChild, bannerFor, brNode, hnl,
    Bool.false_eq_true, if_false, forestAppendL]

theorem pipeline_prefix (nm us hr : String) (opts : parseOptions) (R : HForest)
    (hnl : strContainsChar (nm ++ " (@" ++ us ++ ")") '\n' = false) :
    ∃ rest, childrenL (rewritePipeline opts (.elem "div" []
      (.cons (bannerFor nm us hr) (.cons brNode R)))) =
      bannerFor nm us (absoluteURL hr) :: brNode :: rest := by
  obtain ⟨r1, h1⟩ := fixVideos_prefix nm us hr R
  have h2 : rewriteRelativeLinks (.elem "div" []
      (.cons (bannerFor nm us hr) (.cons brNode r1))) =
      .elem "div" [] (.cons (bannerFor nm us (absoluteURL hr))
        (.cons brNode (rrlForest r1))) := rfl
  obtain ⟨tg, h3⟩ : ∃ tg, inlineUserLinks (.elem "div" []
      (.cons (bannerFor nm us (absoluteURL hr)) (.cons brNode (rrlForest r1)))) =
      .elem tg [] (.cons (bannerFor nm us (absoluteURL hr))
        (.cons brNode (iulForest (rrlForest r1)))) := ⟨_, rfl⟩
  have h4 := alb_prefix nm us (absoluteURL hr) tg (iulForest (rrlForest r1)) hnl
  have h5 : deleteAttr (.elem tg [] (.cons (bannerFor nm us (absoluteURL hr))
      (.cons brNode (albForest (iulForest (rrlForest r1)))))) "class" =
      .elem tg [] (.cons (bannerFor nm us (absoluteURL hr))
        (.cons brNode (deleteAttrF (albForest (iulForest (rrlForest r1))) "class"))) := rfl
  cases hs : opts.simplify with
  | true =>
    obtain ⟨r6, h6⟩ : ∃ r6, simplifyContent (.elem tg []
        (.cons (bannerFor nm us (absoluteURL hr))
          (.cons brNode (deleteAttrF (albForest (iulForest (rrlForest r1))) "class")))) =
        .elem tg [] (.cons (bannerFor nm us (absoluteURL hr)) (.cons brNode r6)) := ⟨_, rfl⟩
    refine ⟨forestToList r6, ?_⟩
    simp only [rewritePipeline, h1, h2, h3, h4, h5, hs, if_true, h6]
    rfl
  | false =>
    refine ⟨forestToList (deleteAttrF (albForest (iulForest (rrlForest r1))) "class"), ?_⟩
    simp only [rewritePipeline, h1, h2, h3, h4, h5, hs, Bool.false_eq_true, if_false]
    rfl

/-- C7: for a post assembled successfully, if the post's author differs
from the timeline owner then the content tree's first block is the
synthesized attribution banner (a bold link naming the author, its href
the absolutized tweet link) followed by a line break; if the author is
the timeline owner, the content is built from just the text child and
the processed embed, with no banner node involved. -/
theorem c7_attribution_banner (tw : tweet) (user : String) (opts : parseOptions)
    (txt embed : HNode) (tw2 : tweet)
    (hok : parseTweetAssemble tw user opts txt embed = (tw2, none))
    (hnl : strContainsChar (tw.Name ++ " (@" ++ tw.User ++ ")") '\n' = false) :
    (tw.User ≠ user →
      ∃ rest, childrenL tw2.contentTree =
        bannerFor tw.Name tw.User (absoluteURL tw.Href) :: brNode :: rest) ∧
    (tw.User = user →
      tw2.contentTree =
        rewritePipeline opts (.elem "div" [] (forestOfList (txt ::
          (if !(childrenL embed).isEmpty then
            [hrNode, brNode, improveLinkCard (improveQuoteTweetHeader embed)]
          else []))))) := by
  have hct : tw2.contentTree = rewritePipeline opts (.elem "div" []
      (forestOfList ((if tw.User != user then [bannerFor tw.Name tw.User tw.Href, brNode]
          else []) ++ txt ::
        (if !(childrenL embed).isEmpty then
          [hrNode, brNode, improveLinkCard (improveQuoteTweetHeader embed)]
        else [])))) := by
    have h := hok
    simp only [parseTweetAssemble] at h
    split at h
    · simp at h
    · have h2 := congrArg (fun q : tweet × Option String => q.1.contentTree) h
      exact h2.symm
  constructor
  · intro hne
    have hb : (tw.User != user) = true := bne_iff_ne.2 hne
    rw [hb] at hct
    simp only [if_true] at hct
    rw [hct]
    exact pipeline_prefix tw.Name tw.User tw.Href opts _ hnl
  · intro heq
    have hb : (tw.User != user) = false := by
      simp [heq]
    rw [hb] at hct
    simp only [Bool.false_eq_true, if_false, List.nil_append] at hct
    exact hct

/-- A concrete retweet for the banner theorem: authored by bob on
alice's timeline. -/
def c7tw : tweet :=
  { ID := 123, Href := "https://twitter.com/bob/status/123", User := "bob", Name := "Bob" }

/-- The text child of the C7 witness post. -/
def c7txt : HNode := .elem "div" [] (.cons (.text "hi") .nil)

/-- The (empty) embed child of the C7 witness post. -/
def c7embed : HNode := .elem "div" [] .nil

/-- The assembled C7 witness post. -/
def c7tw2 : tweet := (parseTweetAssemble c7tw "alice" ⟨true⟩ c7txt c7embed).1

theorem c7_attribution_banner_witness :
    (parseTweetAssemble c7tw "alice" ⟨true⟩ c7txt c7embed = (c7tw2, none) ∧
     strContainsChar (c7tw.Name ++ " (@" ++ c7tw.User ++ ")") '\n' = false) ∧
    ((c7tw.User ≠ "alice" →
      ∃ rest, childrenL c7tw2.contentTree =
        bannerFor c7tw.Name c7tw.User (absoluteURL c7tw.Href) :: brNode :: rest) ∧
     (c7tw.User = "alice" →
      c7tw2.contentTree =
        rewritePipeline ⟨true⟩ (.elem "div" [] (forestOfList (c7txt ::
          (if !(childrenL c7embed).isEmpty then
            [hrNode, brNode, improveLinkCard (improveQuoteTweetHeader c7embed)]
          else [])))))) :=
  ⟨⟨by decide, by decide⟩,
   c7_attribution_banner c7tw "alice" ⟨true⟩ c7txt c7embed c7tw2 (by decide) (by decide)⟩
